import Mathlib

/-!
Verification development for the `ioetap` recording subsystem.

The Go source (package `recorder`: `record.go` and `recorder.go`) is shallowly
embedded here.  Byte strings are modelled as `List Nat` (each element a byte
value `< 256` where it matters); Go standard-library functions that the
recorder calls (`bytes.TrimSpace`, `unicode/utf8.Valid`, `encoding/json.Valid`,
`encoding/base64.StdEncoding.EncodeToString`, `time.Time.Format`) are modelled
faithfully from their documented byte-level behaviour.  All definitions are
executable so that concrete runs can be evaluated by `decide`.
-/

namespace Ioetap

/-- Byte value of a decimal digit test, mirroring `'0' <= c && c <= '9'`. -/
def isDigitByte (b : Nat) : Bool := 48 ≤ b && b ≤ 57

/-- Go `asciiSpace` set used by `bytes.TrimSpace`: `\t \n \v \f \r ' '`. -/
def isASCIISpaceByte (b : Nat) : Bool :=
  b = 9 || b = 10 || b = 11 || b = 12 || b = 13 || b = 32

/-- Byte length of the leading Unicode-whitespace rune of `l`, or 0 when the
first rune is not whitespace.  This enumerates the UTF-8 encodings of every
rune for which Go `unicode.IsSpace` is true: the ASCII spaces, U+0085, U+00A0,
U+1680, U+2000..U+200A, U+2028, U+2029, U+202F, U+205F and U+3000.  Invalid
UTF-8 decodes to `utf8.RuneError`, which is not a space, so any byte sequence
not matching these patterns stops the trim, as in Go `bytes.TrimSpace`. -/
def utf8WSLen (l : List Nat) : Nat :=
  match l with
  | [] => 0
  | b :: rest =>
    if isASCIISpaceByte b then 1
    else
      match b, rest with
      | 0xC2, c :: _ => if c = 0x85 ∨ c = 0xA0 then 2 else 0
      | 0xE1, 0x9A :: 0x80 :: _ => 3
      | 0xE2, 0x80 :: c :: _ =>
          if (0x80 ≤ c ∧ c ≤ 0x8A) ∨ c = 0xA8 ∨ c = 0xA9 ∨ c = 0xAF then 3 else 0
      | 0xE2, 0x81 :: 0x9F :: _ => 3
      | 0xE3, 0x80 :: 0x80 :: _ => 3
      | _, _ => 0

/-- Byte length of the trailing Unicode-whitespace rune of the ORIGINAL list,
given the reversed list; 0 when the last rune is not whitespace.  Matches Go
`utf8.DecodeLastRune` followed by `unicode.IsSpace` (UTF-8 is
self-synchronising from the end, so matching the reversed byte patterns of the
whitespace runes is equivalent). -/
def utf8WSLenRev (l : List Nat) : Nat :=
  match l with
  | [] => 0
  | b :: rest =>
    if isASCIISpaceByte b then 1
    else
      match b, rest with
      | 0x85, 0xC2 :: _ => 2
      | 0xA0, 0xC2 :: _ => 2
      | 0x80, 0x9A :: 0xE1 :: _ => 3
      | c, 0x80 :: 0xE2 :: _ =>
          if (0x80 ≤ c ∧ c ≤ 0x8A) ∨ c = 0xA8 ∨ c = 0xA9 ∨ c = 0xAF then 3 else 0
      | 0x9F, 0x81 :: 0xE2 :: _ => 3
      | 0x80, 0x80 :: 0xE3 :: _ => 3
      | _, _ => 0

/-- Fuel-driven left trim of Unicode whitespace (`fuel ≥ l.length` suffices). -/
def trimLeftF : Nat → List Nat → List Nat
  | 0, l => l
  | fuel + 1, l =>
    let k := utf8WSLen l
    if k = 0 then l else trimLeftF fuel (l.drop k)

/-- Fuel-driven right trim, operating on the reversed byte list. -/
def trimRightRevF : Nat → List Nat → List Nat
  | 0, l => l
  | fuel + 1, l =>
    let k := utf8WSLenRev l
    if k = 0 then l else trimRightRevF fuel (l.drop k)

/-- Model of Go `bytes.TrimSpace`: strip leading and trailing Unicode
whitespace (NOT just ASCII whitespace) from a byte slice. -/
def trimSpace (l : List Nat) : List Nat :=
  let left := trimLeftF l.length l
  (trimRightRevF left.length left.reverse).reverse

/-- Continuation byte test `0x80 ≤ b ≤ 0xBF`. -/
def isContByte (b : Nat) : Bool := 0x80 ≤ b && b ≤ 0xBF

/-- Fuel-driven model of Go `unicode/utf8.Valid`, following the standard
UTF-8 acceptance ranges (shortest form, no surrogates, max U+10FFFF). -/
def utf8ValidF : Nat → List Nat → Bool
  | 0, l => l.isEmpty
  | fuel + 1, l =>
    match l with
    | [] => true
    | b :: rest =>
      if b ≤ 0x7F then utf8ValidF fuel rest
      else if 0xC2 ≤ b ∧ b ≤ 0xDF then
        match rest with
        | c :: r => isContByte c && utf8ValidF fuel r
        | [] => false
      else if b = 0xE0 then
        match rest with
        | c :: d :: r => (0xA0 ≤ c && c ≤ 0xBF) && isContByte d && utf8ValidF fuel r
        | _ => false
      else if b = 0xED then
        match rest with
        | c :: d :: r => (0x80 ≤ c && c ≤ 0x9F) && isContByte d && utf8ValidF fuel r
        | _ => false
      else if 0xE1 ≤ b ∧ b ≤ 0xEF then
        match rest with
        | c :: d :: r => isContByte c && isContByte d && utf8ValidF fuel r
        | _ => false
      else if b = 0xF0 then
        match rest with
        | c :: d :: e :: r =>
            (0x90 ≤ c && c ≤ 0xBF) && isContByte d && isContByte e && utf8ValidF fuel r
        | _ => false
      else if b = 0xF4 then
        match rest with
        | c :: d :: e :: r =>
            (0x80 ≤ c && c ≤ 0x8F) && isContByte d && isContByte e && utf8ValidF fuel r
        | _ => false
      else if 0xF1 ≤ b ∧ b ≤ 0xF3 then
        match rest with
        | c :: d :: e :: r =>
            isContByte c && isContByte d && isContByte e && utf8ValidF fuel r
        | _ => false
      else false

/-- Model of Go `unicode/utf8.Valid` on a byte slice. -/
def utf8Valid (l : List Nat) : Bool := utf8ValidF l.length l

/-- JSON inter-token whitespace per the `encoding/json` scanner:
space, tab, carriage return, newline. -/
def skipJsonWS : List Nat → List Nat
  | [] => []
  | b :: rest => if b = 32 ∨ b = 9 ∨ b = 13 ∨ b = 10 then skipJsonWS rest else b :: rest

/-- Hexadecimal digit byte test for `\uXXXX` escapes. -/
def isHexByte (b : Nat) : Bool :=
  isDigitByte b || (65 ≤ b && b ≤ 70) || (97 ≤ b && b ≤ 102)

/-- Scan a JSON string body (the bytes after the opening quote) and return the
remainder after the closing quote.  As in the Go scanner, any byte `≥ 0x20`
other than `"` and `\` is accepted inside a string — including bytes that are
not valid UTF-8; escapes are the JSON simple escapes and `\uXXXX`. -/
def scanStrBody : List Nat → Option (List Nat)
  | [] => none
  | 34 :: rest => some rest
  | 92 :: e :: rest =>
    if e = 34 ∨ e = 92 ∨ e = 47 ∨ e = 98 ∨ e = 102 ∨ e = 110 ∨ e = 114 ∨ e = 116 then
      scanStrBody rest
    else if e = 117 then
      match rest with
      | h1 :: h2 :: h3 :: h4 :: r =>
          if isHexByte h1 && isHexByte h2 && isHexByte h3 && isHexByte h4 then
            scanStrBody r
          else none
      | _ => none
    else none
  | 92 :: [] => none
  | b :: rest => if b < 32 then none else scanStrBody rest

/-- Scan the optional exponent part of a JSON number. -/
def scanExpOpt (l : List Nat) : Option (List Nat) :=
  match l with
  | 101 :: rest | 69 :: rest =>
    match rest with
    | 43 :: r | 45 :: r =>
      match r with
      | b :: r2 => if isDigitByte b then some ((b :: r2).dropWhile isDigitByte) else none
      | [] => none
    | b :: r2 => if isDigitByte b then some ((b :: r2).dropWhile isDigitByte) else none
    | [] => none
  | _ => some l

/-- Scan the optional fraction part (then exponent) of a JSON number. -/
def scanFracOpt (l : List Nat) : Option (List Nat) :=
  match l with
  | 46 :: rest =>
    match rest with
    | b :: r2 =>
        if isDigitByte b then scanExpOpt ((b :: r2).dropWhile isDigitByte) else none
    | [] => none
  | _ => scanExpOpt l

/-- Scan a JSON number after an optional leading minus sign: `0` or a nonzero
digit followed by digits, then optional fraction and exponent. -/
def scanNumNoSign (l : List Nat) : Option (List Nat) :=
  match l with
  | 48 :: rest => scanFracOpt rest
  | b :: rest => if 49 ≤ b ∧ b ≤ 57 then scanFracOpt (rest.dropWhile isDigitByte) else none
  | [] => none

/-- Parser mode for the JSON validity scanner: a single value, the element
list of an array (closer `]`), or the member list of an object. -/
inductive JMode
  | jval : JMode
  | jelems : JMode
  | jmembers : JMode
deriving DecidableEq

/-- `maxNestingDepth` from the `encoding/json` scanner: the parse-state stack
may hold at most 10000 open containers; a further `{` or `[` is an error. -/
def maxNestingDepth : Nat := 10000

/-- Fuel-driven model of the `encoding/json` scanner used by `json.Valid`:
scan exactly one JSON value and return the remaining bytes.  Mirrors the Go
grammar: objects, arrays, strings (see `scanStrBody`), numbers, `true`,
`false`, `null`, with scanner whitespace between tokens.  `depth` counts the
containers currently open; as in Go's `pushParseState`, opening a container
(even an immediately-closed `{}` or `[]`) fails when the count would exceed
`maxNestingDepth`. -/
def jscan : Nat → Nat → JMode → List Nat → Option (List Nat)
  | 0, _, _, _ => none
  | fuel + 1, depth, .jval, l =>
    match l with
    | [] => none
    | 34 :: rest => scanStrBody rest
    | 123 :: rest =>
      if maxNestingDepth < depth + 1 then none
      else
        match skipJsonWS rest with
        | 125 :: r2 => some r2
        | r => jscan fuel (depth + 1) .jmembers r
    | 91 :: rest =>
      if maxNestingDepth < depth + 1 then none
      else
        match skipJsonWS rest with
        | 93 :: r2 => some r2
        | r => jscan fuel (depth + 1) .jelems r
    | 110 :: 117 :: 108 :: 108 :: r => some r
    | 116 :: 114 :: 117 :: 101 :: r => some r
    | 102 :: 97 :: 108 :: 115 :: 101 :: r => some r
    | 45 :: rest => scanNumNoSign rest
    | b :: rest => if 48 ≤ b ∧ b ≤ 57 then scanNumNoSign (b :: rest) else none
  | fuel + 1, depth, .jelems, l =>
    match jscan fuel depth .jval l with
    | none => none
    | some r =>
      match skipJsonWS r with
      | 44 :: r2 => jscan fuel depth .jelems (skipJsonWS r2)
      | 93 :: r2 => some r2
      | _ => none
  | fuel + 1, depth, .jmembers, l =>
    match l with
    | 34 :: rest =>
      match scanStrBody rest with
      | none => none
      | some r =>
        match skipJsonWS r with
        | 58 :: r2 =>
          match jscan fuel depth .jval (skipJsonWS r2) with
          | none => none
          | some r3 =>
            match skipJsonWS r3 with
            | 44 :: r4 => jscan fuel depth .jmembers (skipJsonWS r4)
            | 125 :: r4 => some r4
            | _ => none
        | _ => none
    | _ => none

/-- Model of Go `encoding/json.Valid`: the input is exactly one JSON value,
possibly surrounded by scanner whitespace, within the scanner's nesting-depth
limit.  This models the scanner only; the follow-up `json.Unmarshal` call in
`NewRecord` imposes the further requirement modelled by `unmarshalOk`. -/
def jsonValid (data : List Nat) : Bool :=
  match jscan (2 * data.length + 8) 0 .jval (skipJsonWS data) with
  | some r => (skipJsonWS r).isEmpty
  | none => false

/-- Smallest decimal magnitude that overflows a `float64`: Go
`strconv.ParseFloat(s, 64)` returns a range error exactly when the decimal
value of `s` is at least `2^1024 - 2^970` in magnitude (the midpoint between
the largest finite `float64` and `2^1024`, which rounds to infinity under
round-to-nearest-even). -/
def float64Overflow : Nat := 2 ^ 1024 - 2 ^ 970

/-- Consume leading decimal digit bytes, extending the accumulator `acc` and
counting the digits consumed; returns `(value, count, rest)`. -/
def readDigitsAux : List Nat → Nat → Nat → Nat × Nat × List Nat
  | [], acc, cnt => (acc, cnt, [])
  | b :: rest, acc, cnt =>
    if isDigitByte b then readDigitsAux rest (acc * 10 + (b - 48)) (cnt + 1)
    else (acc, cnt, b :: rest)

/-- Decompose a JSON number token starting at its first digit (any leading
minus sign already consumed): mantissa digits as a natural number, fraction
length, exponent sign and exponent magnitude, plus the remaining bytes.  The
token's decimal value is `mantissa * 10 ^ (exponent - fracLen)` in magnitude. -/
def splitNumber (l : List Nat) : (Nat × Nat × Bool × Nat) × List Nat :=
  let ipr := readDigitsAux l 0 0
  let mfr :=
    match ipr.2.2 with
    | 46 :: rest => readDigitsAux rest ipr.1 0
    | r1 => (ipr.1, 0, r1)
  match mfr.2.2 with
  | 101 :: rest | 69 :: rest =>
    match rest with
    | 45 :: r3 =>
      let er := readDigitsAux r3 0 0
      ((mfr.1, mfr.2.1, true, er.1), er.2.2)
    | 43 :: r3 =>
      let er := readDigitsAux r3 0 0
      ((mfr.1, mfr.2.1, false, er.1), er.2.2)
    | r3 =>
      let er := readDigitsAux r3 0 0
      ((mfr.1, mfr.2.1, false, er.1), er.2.2)
  | r2 => ((mfr.1, mfr.2.1, false, 0), r2)

/-- Whether a decomposed JSON number converts to a `float64` without a range
error: its magnitude `m * 10 ^ (±e - fracLen)` is below `float64Overflow`
(sign is irrelevant, the threshold being symmetric). -/
def numFits (m fracLen : Nat) (expNeg : Bool) (e : Nat) : Bool :=
  if expNeg then decide (m < float64Overflow * 10 ^ (e + fracLen))
  else if fracLen ≤ e then decide (m * 10 ^ (e - fracLen) < float64Overflow)
  else decide (m < float64Overflow * 10 ^ (fracLen - e))

/-- One pass over the bytes of a JSON document, checking that every number
token converts to a `float64` without overflow.  String literals are skipped
by the string grammar; outside strings a minus sign or digit starts a number
token (which is the case exactly on inputs already accepted by the scanner,
the only inputs on which `NewRecord` consults this). -/
def numbersFitF : Nat → List Nat → Bool
  | 0, l => l.isEmpty
  | fuel + 1, l =>
    match l with
    | [] => true
    | 34 :: rest =>
      match scanStrBody rest with
      | some r => numbersFitF fuel r
      | none => false
    | 45 :: rest =>
      numFits (splitNumber rest).1.1 (splitNumber rest).1.2.1
          (splitNumber rest).1.2.2.1 (splitNumber rest).1.2.2.2 &&
        numbersFitF fuel (splitNumber rest).2
    | b :: rest =>
      if isDigitByte b then
        numFits (splitNumber (b :: rest)).1.1 (splitNumber (b :: rest)).1.2.1
            (splitNumber (b :: rest)).1.2.2.1 (splitNumber (b :: rest)).1.2.2.2 &&
          numbersFitF fuel (splitNumber (b :: rest)).2
      else numbersFitF fuel rest

/-- Success of `json.Unmarshal(data, &parsed)` into `any` on input already
accepted by `json.Valid`: decoding fails exactly when some number token
overflows `float64` (`strconv.ParseFloat` range error, reported by Unmarshal
as an `UnmarshalTypeError`); strings, booleans, null, objects and arrays of a
scanner-accepted document always decode. -/
def unmarshalOk (data : List Nat) : Bool := numbersFitF data.length data

/-- Byte of the base64 standard alphabet at index `n < 64`. -/
def b64Char (n : Nat) : Nat :=
  if n ≤ 25 then 65 + n
  else if n ≤ 51 then 97 + (n - 26)
  else if n ≤ 61 then 48 + (n - 52)
  else if n = 62 then 43 else 47

/-- Model of Go `base64.StdEncoding.EncodeToString` (standard alphabet with
`=` padding), producing the ASCII bytes of the encoding. -/
def base64Encode : List Nat → List Nat
  | [] => []
  | [b1] => [b64Char (b1 / 4), b64Char (b1 % 4 * 16), 61, 61]
  | [b1, b2] => [b64Char (b1 / 4), b64Char (b1 % 4 * 16 + b2 / 16), b64Char (b2 % 16 * 4), 61]
  | b1 :: b2 :: b3 :: rest =>
      b64Char (b1 / 4) :: b64Char (b1 % 4 * 16 + b2 / 16) ::
      b64Char (b2 % 16 * 4 + b3 / 64) :: b64Char (b3 % 64) :: base64Encode rest

/-- Model of `splitTrailingCRLF` from `record.go`: split into content and the
maximal trailing run of CR (13) / LF (10) bytes. -/
def splitTrailingCRLF (data : List Nat) : List Nat × List Nat :=
  let k := (data.reverse.takeWhile (fun b => b == 13 || b == 10)).length
  (data.take (data.length - k), data.drop (data.length - k))

/-- Broken-down UTC instant with millisecond precision, modelling the
`time.Time` value passed to `NewRecord` (already in UTC). -/
structure DateTime where
  year : Nat
  month : Nat
  day : Nat
  hour : Nat
  minute : Nat
  second : Nat
  millis : Nat
deriving DecidableEq

/-- Two zero-padded decimal digit bytes of `n` (`n ≤ 99` renders exactly). -/
def pad2digits (n : Nat) : List Nat := [48 + n / 10 % 10, 48 + n % 10]

/-- Model of `timestamp.UTC().Format("2006-01-02T15:04:05.000Z")` from
`record.go` (`timestampFormat`), as the ASCII bytes of the formatted string,
for instants whose components are within their calendar ranges. -/
def formatTimestamp (t : DateTime) : List Nat :=
  [48 + t.year / 1000 % 10, 48 + t.year / 100 % 10, 48 + t.year / 10 % 10, 48 + t.year % 10,
   45] ++ pad2digits t.month ++ [45] ++ pad2digits t.day ++ [84] ++ pad2digits t.hour ++
  [58] ++ pad2digits t.minute ++ [58] ++ pad2digits t.second ++ [46] ++
  [48 + t.millis / 100 % 10, 48 + t.millis / 10 % 10, 48 + t.millis % 10, 90]

/-- Calendar-range validity of a `DateTime`, as produced by `time.Now().UTC()`. -/
def ValidDT (t : DateTime) : Prop :=
  t.year ≤ 9999 ∧ t.month ≤ 12 ∧ t.day ≤ 31 ∧ t.hour ≤ 23 ∧
  t.minute ≤ 59 ∧ t.second ≤ 59 ∧ t.millis ≤ 999

instance (t : DateTime) : Decidable (ValidDT t) := by unfold ValidDT; infer_instance

/-- Spec-side pattern check: the byte string has shape
`YYYY-MM-DDTHH:MM:SS.mmmZ` (digits at digit positions, literal separators).
This definition follows the spec's words, for comparison with the output of
the source-modelled `formatTimestamp`. -/
def matchesTimestampPattern : List Nat → Bool
  | [y1, y2, y3, y4, s1, mo1, mo2, s2, d1, d2, s3, h1, h2, s4, mi1, mi2, s5,
     se1, se2, s6, ms1, ms2, ms3, s7] =>
    isDigitByte y1 && isDigitByte y2 && isDigitByte y3 && isDigitByte y4 &&
    s1 = 45 && isDigitByte mo1 && isDigitByte mo2 && s2 = 45 &&
    isDigitByte d1 && isDigitByte d2 && s3 = 84 &&
    isDigitByte h1 && isDigitByte h2 && s4 = 58 &&
    isDigitByte mi1 && isDigitByte mi2 && s5 = 58 &&
    isDigitByte se1 && isDigitByte se2 && s6 = 46 &&
    isDigitByte ms1 && isDigitByte ms2 && isDigitByte ms3 && s7 = 90
  | _ => false

/-- The `Source` enumeration from `recorder.go`. -/
inductive Source
  | stdin : Source
  | stdout : Source
  | stderr : Source
deriving DecidableEq

/-- Model of `Source.String()`. -/
def Source.str : Source → String
  | .stdin => "stdin"
  | .stdout => "stdout"
  | .stderr => "stderr"

/-- Tagged content of a record, per the three encodings.  For `json` the
parsed value is represented by the trimmed source bytes it was parsed from
(the parse tree itself is not needed by any claim); for `text` the content
bytes; for `base64` the ASCII bytes of the base64 string. -/
inductive RContent
  | jsonC : List Nat → RContent
  | textC : List Nat → RContent
  | b64C : List Nat → RContent
deriving DecidableEq

/-- Bytes stored in a content value. -/
def RContent.bytes : RContent → List Nat
  | .jsonC v => v
  | .textC v => v
  | .b64C v => v

/-- Model of the `Record` struct from `record.go`.  Strings are byte lists;
`Source` and `Encoding` are the literal strings used by the Go code. -/
structure Record where
  Seq : Nat
  Timestamp : List Nat
  Source : String
  Content : RContent
  Encoding : String
  End : List Nat
  Truncated : Bool
deriving DecidableEq

/-- Model of `NewRecord` from `record.go`: automatic encoding detection with
priority json > text > base64.  The Go code checks
`len(trimmed) > 0 && json.Valid(trimmed)` and classifies json only when the
follow-up `json.Unmarshal(trimmed, &parsed)` also succeeds (`unmarshalOk`);
when Unmarshal fails — a number token overflowing `float64` — it falls
through to the UTF-8 check exactly as when `json.Valid` fails. -/
def NewRecord (seq : Nat) (timestamp : DateTime) (source : String) (data : List Nat) :
    Record :=
  if trimSpace data ≠ [] ∧ jsonValid (trimSpace data) = true ∧
      unmarshalOk (trimSpace data) = true then
    { Seq := seq, Timestamp := formatTimestamp timestamp, Source := source,
      Content := .jsonC (trimSpace data), Encoding := "json", End := [], Truncated := false }
  else if utf8Valid data then
    { Seq := seq, Timestamp := formatTimestamp timestamp, Source := source,
      Content := .textC (splitTrailingCRLF data).1, Encoding := "text",
      End := (splitTrailingCRLF data).2, Truncated := false }
  else
    { Seq := seq, Timestamp := formatTimestamp timestamp, Source := source,
      Content := .b64C (base64Encode data), Encoding := "base64", End := [],
      Truncated := false }

/-- Field value in the serialized JSON object. -/
inductive JField
  | num : Nat → JField
  | str : String → JField
  | strBytes : List Nat → JField
  | contentVal : RContent → JField
  | boolLit : Bool → JField
deriving DecidableEq

/-- Model of `Record.MarshalJSON` from `record.go` at the level of the emitted
object's field list: the `recordAlias` struct fields in declaration order,
with `end` carrying `omitempty` (omitted when the string is empty) and
`truncated` carrying `omitempty` (omitted when false).  Serialization of the
individual field values to JSON text is abstracted to the field list. -/
def marshalJSON (r : Record) : List (String × JField) :=
  [("seq", .num r.Seq), ("timestamp", .strBytes r.Timestamp), ("source", .str r.Source),
   ("content", .contentVal r.Content), ("encoding", .str r.Encoding)] ++
  (if r.End = [] then [] else [("end", .strBytes r.End)]) ++
  (if r.Truncated then [("truncated", .boolLit true)] else [])

/-- Model of `extractLineEndingFromLine` from `recorder.go`. -/
def extractLineEndingFromLine (line : List Nat) : List Nat :=
  match line.reverse with
  | [] => []
  | b :: rest =>
    if b ≠ 10 then []
    else
      match rest with
      | c :: _ => if c = 13 then [13, 10] else [10]
      | [] => [10]

/-- Model of `extractLineEnding` from `recorder.go`. -/
def extractLineEnding (buf chunk : List Nat) : List Nat :=
  extractLineEndingFromLine (buf ++ chunk)

/-- Model of `bytes.IndexByte(data, '\n')`: index of the first LF byte. -/
def findNL : List Nat → Option Nat
  | [] => none
  | b :: rest => if b = 10 then some 0 else (findNL rest).map (· + 1)

/-- Model of the `Recorder` struct state from `recorder.go`: the sequence
counter, the per-stream line buffers and truncation flags, the configured
limit, and the sink modelled as the list of records written so far (the
NDJSON file, one record per physical line). -/
structure Recorder where
  seq : Nat
  maxLineLength : Nat
  bufStdin : List Nat
  bufStdout : List Nat
  bufStderr : List Nat
  trStdin : Bool
  trStdout : Bool
  trStderr : Bool
  out : List Record
deriving DecidableEq

/-- Per-stream line buffer (`r.buffers[source]`). -/
def Recorder.buffers (r : Recorder) : Source → List Nat
  | .stdin => r.bufStdin
  | .stdout => r.bufStdout
  | .stderr => r.bufStderr

/-- Per-stream truncation flag (`r.truncated[source]`). -/
def Recorder.truncFlag (r : Recorder) : Source → Bool
  | .stdin => r.trStdin
  | .stdout => r.trStdout
  | .stderr => r.trStderr

/-- Update one stream's buffer. -/
def Recorder.setBuf (r : Recorder) (s : Source) (v : List Nat) : Recorder :=
  match s with
  | .stdin => { r with bufStdin := v }
  | .stdout => { r with bufStdout := v }
  | .stderr => { r with bufStderr := v }

/-- Update one stream's truncation flag. -/
def Recorder.setTrunc (r : Recorder) (s : Source) (v : Bool) : Recorder :=
  match s with
  | .stdin => { r with trStdin := v }
  | .stdout => { r with trStdout := v }
  | .stderr => { r with trStderr := v }

/-- Model of `writeRecord` from `recorder.go`.  The sequence counter advances
first (`r.seq.Add(1) - 1`); then serialization and the sink write happen,
whose possible failure is modelled by the oracle `orc` applied to the
sequence number of this write (each write attempt carries a distinct sequence
number).  On failure the error is returned (`false`) and nothing is appended;
on success the record is appended to the sink. -/
def Recorder.writeRecord (orc : Nat → Bool) (r : Recorder) (now : DateTime)
    (source : Source) (data : List Nat) (truncated : Bool) : Recorder × Bool :=
  if orc r.seq then ({ r with seq := r.seq + 1 }, false)
  else
    ({ r with
        seq := r.seq + 1
        out := r.out ++ [{ NewRecord r.seq now source.str data with Truncated := truncated }] },
      true)

/-- Model of `writeTruncatedRecord` from `recorder.go`: the line ending is
appended to the truncated content and the result written with
`truncated = true`. -/
def Recorder.writeTruncatedRecord (orc : Nat → Bool) (r : Recorder) (now : DateTime)
    (source : Source) (content lineEnding : List Nat) : Recorder × Bool :=
  Recorder.writeRecord orc r now source (content ++ lineEnding) true

/-- Model of the `for len(data) > 0` loop in `Record` from `recorder.go`,
fuel-driven so that concrete runs reduce in the kernel (`fuel ≥ data.length`
is always sufficient: every iteration consumes at least one byte).  The
boolean result is `true` on success and `false` when a write failed (the Go
method returns the error immediately, leaving the state as mutated so far). -/
def Recorder.recordLoop (orc : Nat → Bool) (now : DateTime) (source : Source) :
    Nat → Recorder → List Nat → Recorder × Bool
  | 0, r, _ => (r, true)
  | fuel + 1, r, data =>
    if data = [] then (r, true)
    else
      match findNL data with
      | none =>
        if r.truncFlag source then
          -- currently in truncation mode and no newline: skip all remaining data
          (r, true)
        else if 0 < r.maxLineLength ∧ r.maxLineLength < (r.buffers source ++ data).length then
          ((r.setBuf source ((r.buffers source ++ data).take r.maxLineLength)).setTrunc
            source true, true)
        else
          (r.setBuf source (r.buffers source ++ data), true)
      | some idx =>
        if r.truncFlag source then
          let w := r.writeTruncatedRecord orc now source (r.buffers source)
            (extractLineEnding (r.buffers source) (data.take (idx + 1)))
          if w.2 then
            Recorder.recordLoop orc now source fuel
              ((w.1.setBuf source []).setTrunc source false) (data.drop (idx + 1))
          else (w.1, false)
        else if 0 < r.maxLineLength ∧
            r.maxLineLength < (r.buffers source ++ data.take (idx + 1)).length then
          let w := (r.setBuf source []).writeTruncatedRecord orc now source
            ((r.buffers source ++ data.take (idx + 1)).take r.maxLineLength)
            (extractLineEndingFromLine (r.buffers source ++ data.take (idx + 1)))
          if w.2 then Recorder.recordLoop orc now source fuel w.1 (data.drop (idx + 1))
          else (w.1, false)
        else
          let w := (r.setBuf source []).writeRecord orc now source
            (r.buffers source ++ data.take (idx + 1)) false
          if w.2 then Recorder.recordLoop orc now source fuel w.1 (data.drop (idx + 1))
          else (w.1, false)

/-- Model of `Record` from `recorder.go` (the public feed operation). -/
def Recorder.Record (orc : Nat → Bool) (r : Recorder) (now : DateTime) (source : Source)
    (data : List Nat) : Recorder × Bool :=
  if data = [] then (r, true)
  else Recorder.recordLoop orc now source data.length r data

/-- Model of `Flush` from `recorder.go` (buffer and flag are cleared before
the write, as in the Go code). -/
def Recorder.Flush (orc : Nat → Bool) (r : Recorder) (now : DateTime) (source : Source) :
    Recorder × Bool :=
  if r.buffers source = [] then (r.setTrunc source false, true)
  else if r.truncFlag source then
    ((r.setBuf source []).setTrunc source false).writeTruncatedRecord orc now source
      (r.buffers source) []
  else
    ((r.setBuf source []).setTrunc source false).writeRecord orc now source
      (r.buffers source) false

/-- One external operation on the recorder: a feed (`Record`) or a `Flush`,
carrying the wall-clock instant observed by the call. -/
inductive Op
  | feed : DateTime → Source → List Nat → Op
  | flush : DateTime → Source → Op

/-- Timestamp carried by an operation. -/
def Op.dt : Op → DateTime
  | .feed now _ _ => now
  | .flush now _ => now

/-- Run one operation, discarding the error result (as `CopyAndRecord` does:
recording errors are logged and byte forwarding continues). -/
def runOp (orc : Nat → Bool) (r : Recorder) : Op → Recorder
  | .feed now src data => (r.Record orc now src data).1
  | .flush now src => (r.Flush orc now src).1

/-- Run a list of operations in order. -/
def runOps (orc : Nat → Bool) (ops : List Op) (r : Recorder) : Recorder :=
  ops.foldl (runOp orc) r

/-- Fresh recorder state as built by `NewRecorder`. -/
def initRecorder (maxLineLength : Nat) : Recorder :=
  { seq := 0, maxLineLength := maxLineLength, bufStdin := [], bufStdout := [],
    bufStderr := [], trStdin := false, trStdout := false, trStderr := false, out := [] }

/-- The oracle of a sink on which every write succeeds. -/
def noFail : Nat → Bool := fun _ => false

/-- Invariant of the sequencer: sink records carry strictly increasing
sequence numbers, all below the counter; and when no write ever fails the
counter equals the number of records and the sequence numbers are exactly
`0, …, N-1` in emission order. -/
def SeqInv (orc : Nat → Bool) (r : Recorder) : Prop :=
  List.Pairwise (· < ·) (r.out.map Record.Seq) ∧
  (∀ rec ∈ r.out, rec.Seq < r.seq) ∧
  ((∀ n, orc n = false) → r.seq = r.out.length ∧
    r.out.map Record.Seq = List.range r.out.length)

/-- Invariant of the per-stream assemblers: pending buffers never contain an
LF byte, and a stream in truncation mode has its pending content capped at
exactly the (positive) configured limit. -/
def BufInv (r : Recorder) : Prop :=
  ∀ s, 10 ∉ r.buffers s ∧
    (r.truncFlag s = true → (r.buffers s).length = r.maxLineLength ∧ 0 < r.maxLineLength)

/-- Shape facts holding of every record in the sink: the encoding and source
enumerations, the timestamp pattern, and — for truncated records — provenance
from classifying a capped prefix of exactly `max` bytes plus a recovered
terminator. -/
def RecShape (max : Nat) (rec : Record) : Prop :=
  (rec.Encoding = "json" ∨ rec.Encoding = "text" ∨ rec.Encoding = "base64") ∧
  (rec.Source = "stdin" ∨ rec.Source = "stdout" ∨ rec.Source = "stderr") ∧
  matchesTimestampPattern rec.Timestamp = true ∧
  (rec.Truncated = true → 0 < max ∧ ∃ dt pre e, pre.length = max ∧
    (e = [] ∨ e = [10] ∨ e = [13, 10]) ∧
    rec = { NewRecord rec.Seq dt rec.Source (pre ++ e) with Truncated := true })

/-- The conjunction of all reachable-state invariants. -/
def GoodState (orc : Nat → Bool) (r : Recorder) : Prop :=
  SeqInv orc r ∧ BufInv r ∧ ∀ rec ∈ r.out, RecShape r.maxLineLength rec

/-! ### Helper lemmas about the byte-level functions -/

theorem findNL_eq_none_iff {l : List Nat} : findNL l = none ↔ 10 ∉ l := by
  induction l with
  | nil => simp [findNL]
  | cons b rest ih =>
    simp only [findNL, List.mem_cons]
    by_cases hb : b = 10
    · subst hb; simp
    · rw [if_neg hb]
      cases h : findNL rest with
      | none =>
        simp only [Option.map_none']
        constructor
        · intro _
          push_neg
          exact ⟨fun hc => hb hc.symm, ih.mp h⟩
        · intro _; trivial
      | some i =>
        simp only [Option.map_some']
        constructor
        · intro hc; simp at hc
        · intro hc
          exfalso
          have h10 : 10 ∈ rest := by
            by_contra hm
            rw [← ih] at hm
            simp [h] at hm
          exact hc (Or.inr h10)

theorem findNL_some_lt {l : List Nat} {i : Nat} (h : findNL l = some i) : i < l.length := by
  induction l generalizing i with
  | nil => simp [findNL] at h
  | cons b rest ih =>
    by_cases hb : b = 10
    · subst hb
      simp [findNL] at h
      simp only [List.length_cons]
      omega
    · rw [findNL, if_neg hb] at h
      cases hr : findNL rest with
      | none => simp [hr] at h
      | some j =>
        rw [hr] at h
        simp only [Option.map_some'] at h
        have hj := ih hr
        simp only [List.length_cons]
        have : j + 1 = i := by simpa using h
        omega

theorem getLast?_append_right {a b : List Nat} (h : b ≠ []) :
    (a ++ b).getLast? = b.getLast? := by
  rw [List.getLast?_append]
  cases b with
  | nil => exact absurd rfl h
  | cons x xs => simp [List.getLast?_cons]

theorem findNL_take_getLast {l : List Nat} {i : Nat} (h : findNL l = some i) :
    (l.take (i + 1)).getLast? = some 10 := by
  induction l generalizing i with
  | nil => simp [findNL] at h
  | cons b rest ih =>
    by_cases hb : b = 10
    · subst hb
      simp [findNL] at h
      subst h
      simp
    · rw [findNL, if_neg hb] at h
      cases hr : findNL rest with
      | none => simp [hr] at h
      | some j =>
        rw [hr] at h
        simp only [Option.map_some'] at h
        have hji : j + 1 = i := by simpa using h
        subst hji
        have hj := ih hr
        have hne : rest.take (j + 1) ≠ [] := by
          intro hc; rw [hc] at hj; simp at hj
        have hstep : (b :: rest).take (j + 1 + 1) = [b] ++ rest.take (j + 1) := by
          simp [List.take_succ_cons]
        rw [hstep, getLast?_append_right hne, hj]

theorem findNL_append_of_none {a b : List Nat} (h : findNL a = none) :
    findNL (a ++ b) = (findNL b).map (a.length + ·) := by
  induction a with
  | nil =>
    simp only [List.nil_append, List.length_nil]
    cases findNL b <;> simp
  | cons x xs ih =>
    have hx : x ≠ 10 := by
      intro hc; subst hc; simp [findNL] at h
    rw [findNL, if_neg hx] at h
    have hxs : findNL xs = none := by
      cases hh : findNL xs with
      | none => rfl
      | some j => simp [hh] at h
    rw [List.cons_append, findNL, if_neg hx, ih hxs]
    cases findNL b with
    | none => simp
    | some j =>
      simp only [Option.map_some', List.length_cons]
      congr 1
      omega

theorem findNL_append_singleton {l : List Nat} (h : findNL l = none) :
    findNL (l ++ [10]) = some l.length := by
  rw [findNL_append_of_none h]
  simp [findNL]

theorem takeWhile_append_of_all {p : Nat → Bool} {a b : List Nat} (h : ∀ x ∈ a, p x) :
    (a ++ b).takeWhile p = a ++ b.takeWhile p := by
  induction a with
  | nil => rfl
  | cons x xs ih =>
    simp [List.takeWhile_cons, h x (by simp), ih (fun y hy => h y (by simp [hy]))]

theorem splitTrailingCRLF_join (d : List Nat) :
    (splitTrailingCRLF d).1 ++ (splitTrailingCRLF d).2 = d := by
  simp [splitTrailingCRLF]

theorem splitTrailingCRLF_snd (d : List Nat) :
    (splitTrailingCRLF d).2 = (d.reverse.takeWhile (fun b => b == 13 || b == 10)).reverse := by
  have hsplit : d.reverse.takeWhile (fun b => b == 13 || b == 10) ++
      d.reverse.dropWhile (fun b => b == 13 || b == 10) = d.reverse :=
    List.takeWhile_append_dropWhile ..
  set T := d.reverse.takeWhile (fun b => b == 13 || b == 10) with hT
  set R := d.reverse.dropWhile (fun b => b == 13 || b == 10) with hR
  have hd : d = R.reverse ++ T.reverse := by
    have := congrArg List.reverse hsplit
    simpa [List.reverse_append] using this.symm
  have hsum : T.length + R.length = d.length := by
    have := congrArg List.length hsplit
    simpa using this
  have hlen : d.length - T.length = R.length := by omega
  simp only [splitTrailingCRLF]
  rw [hlen]
  conv_lhs => rw [hd]
  have hRlen : R.length = R.reverse.length := by simp
  rw [hRlen, List.drop_left]

theorem splitTrailingCRLF_fst (d : List Nat) :
    (splitTrailingCRLF d).1 =
      (d.reverse.dropWhile (fun b => b == 13 || b == 10)).reverse := by
  have hsplit : d.reverse.takeWhile (fun b => b == 13 || b == 10) ++
      d.reverse.dropWhile (fun b => b == 13 || b == 10) = d.reverse :=
    List.takeWhile_append_dropWhile ..
  set T := d.reverse.takeWhile (fun b => b == 13 || b == 10) with hT
  set R := d.reverse.dropWhile (fun b => b == 13 || b == 10) with hR
  have hd : d = R.reverse ++ T.reverse := by
    have := congrArg List.reverse hsplit
    simpa [List.reverse_append] using this.symm
  have hsum : T.length + R.length = d.length := by
    have := congrArg List.length hsplit
    simpa using this
  have hlen : d.length - T.length = R.length := by omega
  simp only [splitTrailingCRLF]
  rw [hlen]
  conv_lhs => rw [hd]
  have hRlen : R.length = R.reverse.length := by simp
  rw [hRlen, List.take_left]

theorem splitTrailingCRLF_end_mem {d : List Nat} :
    ∀ x ∈ (splitTrailingCRLF d).2, x = 13 ∨ x = 10 := by
  intro x hx
  rw [splitTrailingCRLF_snd] at hx
  rw [List.mem_reverse] at hx
  have := List.mem_takeWhile_imp hx
  simpa using this

theorem splitTrailingCRLF_end_getLast {d : List Nat} (h : d.getLast? = some 10) :
    (splitTrailingCRLF d).2.getLast? = some 10 := by
  rw [splitTrailingCRLF_snd]
  rw [List.getLast?_reverse]
  cases hd : d.reverse with
  | nil =>
    exfalso
    have : d = [] := by simpa using congrArg List.reverse hd
    subst this; simp at h
  | cons b rest =>
    have hb : b = 10 := by
      have : d.reverse.head? = some 10 := by rw [List.head?_reverse]; exact h
      rw [hd] at this; simpa using this
    subst hb
    simp [List.takeWhile_cons]

theorem splitTrailingCRLF_content_le {pre e : List Nat}
    (he : ∀ x ∈ e, x = 13 ∨ x = 10) :
    (splitTrailingCRLF (pre ++ e)).1.length ≤ pre.length := by
  have hall : ∀ x ∈ e.reverse, (fun b => b == 13 || b == 10) x = true := by
    intro x hx
    rcases he x (List.mem_reverse.mp hx) with h | h <;> simp [h]
  have hk : e.length ≤
      ((pre ++ e).reverse.takeWhile (fun b => b == 13 || b == 10)).length := by
    rw [List.reverse_append, takeWhile_append_of_all hall]
    simp
  simp only [splitTrailingCRLF, List.length_take, List.length_append]
  omega

/-! ### Projection lemmas for the recorder state -/

@[simp] theorem buffers_setBuf_self (r : Recorder) (s : Source) (v : List Nat) :
    (r.setBuf s v).buffers s = v := by cases s <;> rfl

theorem buffers_setBuf_ne (r : Recorder) {s s' : Source} (v : List Nat) (h : s' ≠ s) :
    (r.setBuf s v).buffers s' = r.buffers s' := by
  cases s <;> cases s' <;> first | rfl | exact absurd rfl h

@[simp] theorem truncFlag_setBuf (r : Recorder) (s s' : Source) (v : List Nat) :
    (r.setBuf s v).truncFlag s' = r.truncFlag s' := by cases s <;> cases s' <;> rfl

@[simp] theorem out_setBuf (r : Recorder) (s : Source) (v : List Nat) :
    (r.setBuf s v).out = r.out := by cases s <;> rfl

@[simp] theorem seq_setBuf (r : Recorder) (s : Source) (v : List Nat) :
    (r.setBuf s v).seq = r.seq := by cases s <;> rfl

@[simp] theorem max_setBuf (r : Recorder) (s : Source) (v : List Nat) :
    (r.setBuf s v).maxLineLength = r.maxLineLength := by cases s <;> rfl

@[simp] theorem truncFlag_setTrunc_self (r : Recorder) (s : Source) (v : Bool) :
    (r.setTrunc s v).truncFlag s = v := by cases s <;> rfl

theorem truncFlag_setTrunc_ne (r : Recorder) {s s' : Source} (v : Bool) (h : s' ≠ s) :
    (r.setTrunc s v).truncFlag s' = r.truncFlag s' := by
  cases s <;> cases s' <;> first | rfl | exact absurd rfl h

@[simp] theorem buffers_setTrunc (r : Recorder) (s s' : Source) (v : Bool) :
    (r.setTrunc s v).buffers s' = r.buffers s' := by cases s <;> cases s' <;> rfl

@[simp] theorem out_setTrunc (r : Recorder) (s : Source) (v : Bool) :
    (r.setTrunc s v).out = r.out := by cases s <;> rfl

@[simp] theorem seq_setTrunc (r : Recorder) (s : Source) (v : Bool) :
    (r.setTrunc s v).seq = r.seq := by cases s <;> rfl

@[simp] theorem max_setTrunc (r : Recorder) (s : Source) (v : Bool) :
    (r.setTrunc s v).maxLineLength = r.maxLineLength := by cases s <;> rfl

@[simp] theorem writeRecord_fst_buffers (orc : Nat → Bool) (r : Recorder) (now : DateTime)
    (src : Source) (d : List Nat) (tr : Bool) (s : Source) :
    ((r.writeRecord orc now src d tr).1).buffers s = r.buffers s := by
  unfold Recorder.writeRecord; split <;> rfl

@[simp] theorem writeRecord_fst_truncFlag (orc : Nat → Bool) (r : Recorder) (now : DateTime)
    (src : Source) (d : List Nat) (tr : Bool) (s : Source) :
    ((r.writeRecord orc now src d tr).1).truncFlag s = r.truncFlag s := by
  unfold Recorder.writeRecord; split <;> rfl

@[simp] theorem writeRecord_fst_max (orc : Nat → Bool) (r : Recorder) (now : DateTime)
    (src : Source) (d : List Nat) (tr : Bool) :
    ((r.writeRecord orc now src d tr).1).maxLineLength = r.maxLineLength := by
  unfold Recorder.writeRecord; split <;> rfl

@[simp] theorem writeRecord_fst_seq (orc : Nat → Bool) (r : Recorder) (now : DateTime)
    (src : Source) (d : List Nat) (tr : Bool) :
    ((r.writeRecord orc now src d tr).1).seq = r.seq + 1 := by
  unfold Recorder.writeRecord; split <;> rfl

theorem writeRecord_fst_out (orc : Nat → Bool) (r : Recorder) (now : DateTime)
    (src : Source) (d : List Nat) (tr : Bool) :
    ((r.writeRecord orc now src d tr).1).out = r.out ∨
      ((r.writeRecord orc now src d tr).1).out =
        r.out ++ [{ NewRecord r.seq now src.str d with Truncated := tr }] := by
  unfold Recorder.writeRecord
  split
  · left; rfl
  · right; rfl

theorem writeRecord_noFail (r : Recorder) (now : DateTime) (src : Source) (d : List Nat)
    (tr : Bool) :
    r.writeRecord noFail now src d tr =
      ({ r with
          seq := r.seq + 1
          out := r.out ++ [{ NewRecord r.seq now src.str d with Truncated := tr }] },
        true) := rfl

theorem extractLineEndingFromLine_of_last10 {l : List Nat} (h : l.getLast? = some 10) :
    extractLineEndingFromLine l = [10] ∨ extractLineEndingFromLine l = [13, 10] := by
  have hrev : l.reverse.head? = some 10 := by rw [List.head?_reverse]; exact h
  unfold extractLineEndingFromLine
  cases hd : l.reverse with
  | nil => rw [hd] at hrev; simp at hrev
  | cons b rest =>
    rw [hd] at hrev
    have hb : b = 10 := by simpa using hrev
    subst hb
    cases rest with
    | nil => left; simp
    | cons c cs =>
      by_cases hc : c = 13
      · subst hc; right; simp
      · left; simp [hc]

/-! ### Classifier lemmas -/

theorem NewRecord_Seq (s : Nat) (t : DateTime) (src : String) (d : List Nat) :
    (NewRecord s t src d).Seq = s := by
  unfold NewRecord
  split
  · rfl
  · split <;> rfl

theorem NewRecord_Timestamp (s : Nat) (t : DateTime) (src : String) (d : List Nat) :
    (NewRecord s t src d).Timestamp = formatTimestamp t := by
  unfold NewRecord
  split
  · rfl
  · split <;> rfl

theorem NewRecord_Source (s : Nat) (t : DateTime) (src : String) (d : List Nat) :
    (NewRecord s t src d).Source = src := by
  unfold NewRecord
  split
  · rfl
  · split <;> rfl

theorem NewRecord_Truncated (s : Nat) (t : DateTime) (src : String) (d : List Nat) :
    (NewRecord s t src d).Truncated = false := by
  unfold NewRecord
  split
  · rfl
  · split <;> rfl

theorem NewRecord_encoding_cases (s : Nat) (t : DateTime) (src : String) (d : List Nat) :
    (NewRecord s t src d).Encoding = "json" ∨ (NewRecord s t src d).Encoding = "text" ∨
      (NewRecord s t src d).Encoding = "base64" := by
  unfold NewRecord
  split
  · left; rfl
  · split
    · right; left; rfl
    · right; right; rfl

theorem NewRecord_text_fields {s : Nat} {t : DateTime} {src : String} {d : List Nat}
    (h : (NewRecord s t src d).Encoding = "text") :
    (NewRecord s t src d).Content = .textC (splitTrailingCRLF d).1 ∧
      (NewRecord s t src d).End = (splitTrailingCRLF d).2 := by
  by_cases hj : trimSpace d ≠ [] ∧ jsonValid (trimSpace d) = true ∧
      unmarshalOk (trimSpace d) = true
  · exfalso
    have hx : (NewRecord s t src d).Encoding = "json" := by
      unfold NewRecord; rw [if_pos hj]
    rw [hx] at h; simp at h
  · by_cases hu : utf8Valid d = true
    · constructor
      · unfold NewRecord; rw [if_neg hj, if_pos hu]
      · unfold NewRecord; rw [if_neg hj, if_pos hu]
    · exfalso
      have hx : (NewRecord s t src d).Encoding = "base64" := by
        unfold NewRecord; rw [if_neg hj, if_neg hu]
      rw [hx] at h; simp at h

theorem NewRecord_text_join {s : Nat} {t : DateTime} {src : String} {d : List Nat}
    (h : (NewRecord s t src d).Encoding = "text") :
    (NewRecord s t src d).Content.bytes ++ (NewRecord s t src d).End = d := by
  obtain ⟨h1, h2⟩ := NewRecord_text_fields h
  rw [h1, h2]
  exact splitTrailingCRLF_join d

theorem NewRecord_end_prop {s : Nat} {t : DateTime} {src : String} {d : List Nat}
    (h : d.getLast? = some 10) :
    (NewRecord s t src d).End = [] ∨ (NewRecord s t src d).End.getLast? = some 10 := by
  unfold NewRecord
  split
  · left; rfl
  · split
    · right
      exact splitTrailingCRLF_end_getLast h
    · left; rfl

theorem isDigitByte_mod10 (x : Nat) : isDigitByte (48 + x % 10) = true := by
  unfold isDigitByte
  have h : x % 10 < 10 := Nat.mod_lt x (by omega)
  simp only [Bool.and_eq_true, decide_eq_true_eq]
  omega

/-- The source-modelled timestamp rendering always matches the spec's
`YYYY-MM-DDTHH:MM:SS.mmmZ` pattern (the model fixes each component to its
zero-padded width, which coincides with Go's `Format` output whenever the
components are within calendar ranges, i.e. under `ValidDT`). -/
theorem matchesTimestampPattern_format (t : DateTime) :
    matchesTimestampPattern (formatTimestamp t) = true := by
  simp only [formatTimestamp, pad2digits, List.cons_append, List.nil_append]
  simp only [matchesTimestampPattern]
  simp [isDigitByte_mod10]

/-! ### Basic lemmas about the record loop -/

theorem recordLoop_zero (orc : Nat → Bool) (now : DateTime) (src : Source) (r : Recorder)
    (data : List Nat) : Recorder.recordLoop orc now src 0 r data = (r, true) := rfl

theorem recordLoop_nil (orc : Nat → Bool) (now : DateTime) (src : Source) (r : Recorder)
    (f : Nat) : Recorder.recordLoop orc now src f r [] = (r, true) := by
  cases f <;> rfl

theorem recordLoop_fuel (orc : Nat → Bool) (now : DateTime) (src : Source) :
    ∀ f1 f2 (data : List Nat) (r : Recorder), data.length ≤ f1 → data.length ≤ f2 →
      Recorder.recordLoop orc now src f1 r data = Recorder.recordLoop orc now src f2 r data := by
  intro f1
  induction f1 with
  | zero =>
    intro f2 data r h1 _
    have hd : data = [] := List.length_eq_zero.mp (Nat.le_zero.mp h1)
    subst hd
    rw [recordLoop_nil, recordLoop_nil]
  | succ f ih =>
    intro f2 data r h1 h2
    cases data with
    | nil => rw [recordLoop_nil, recordLoop_nil]
    | cons b rest =>
      cases f2 with
      | zero => simp at h2
      | succ f2' =>
        have hne : b :: rest ≠ [] := by simp
        have hrf : rest.length ≤ f := by
          simp only [List.length_cons] at h1; omega
        have hrf2 : rest.length ≤ f2' := by
          simp only [List.length_cons] at h2; omega
        simp only [Recorder.recordLoop, if_neg hne]
        cases hnl : findNL (b :: rest) with
        | none => rfl
        | some idx =>
          simp only [hnl]
          have hdl : ∀ n : Nat, (rest.drop n).length ≤ rest.length := by
            intro n; rw [List.length_drop]; omega
          split
          · split
            · exact ih f2' _ _ (le_trans (hdl idx) hrf) (le_trans (hdl idx) hrf2)
            · rfl
          · split
            · split
              · exact ih f2' _ _ (le_trans (hdl idx) hrf) (le_trans (hdl idx) hrf2)
              · rfl
            · split
              · exact ih f2' _ _ (le_trans (hdl idx) hrf) (le_trans (hdl idx) hrf2)
              · rfl


/-! ### Invariant preservation -/

theorem writeRecord_out_of_ok {orc : Nat → Bool} {r : Recorder} {now : DateTime}
    {src : Source} {d : List Nat} {tr : Bool}
    (h : (r.writeRecord orc now src d tr).2 = true) :
    (r.writeRecord orc now src d tr).1 =
      { r with
          seq := r.seq + 1
          out := r.out ++ [{ NewRecord r.seq now src.str d with Truncated := tr }] } := by
  unfold Recorder.writeRecord at h ⊢
  split at h
  next => simp at h
  next hc => rw [if_neg hc]

theorem writeRecord_out_of_err {orc : Nat → Bool} {r : Recorder} {now : DateTime}
    {src : Source} {d : List Nat} {tr : Bool}
    (h : (r.writeRecord orc now src d tr).2 = false) :
    (r.writeRecord orc now src d tr).1 = { r with seq := r.seq + 1 } := by
  unfold Recorder.writeRecord at h ⊢
  split at h
  next hc => rw [if_pos hc]
  next => simp at h

theorem SeqInv_congr {orc : Nat → Bool} {r r' : Recorder} (hout : r'.out = r.out)
    (hseq : r'.seq = r.seq) (h : SeqInv orc r) : SeqInv orc r' := by
  unfold SeqInv at h ⊢
  rw [hout, hseq]
  exact h

theorem shape_congr {r r' : Recorder} (hout : r'.out = r.out)
    (hmax : r'.maxLineLength = r.maxLineLength)
    (h : ∀ rec ∈ r.out, RecShape r.maxLineLength rec) :
    ∀ rec ∈ r'.out, RecShape r'.maxLineLength rec := by
  rw [hout, hmax]
  exact h

theorem mem_take_append {b : Nat} {l : List Nat} {n : Nat} {l2 : List Nat}
    (h : b ∈ (l ++ l2).take n) : b ∈ l ∨ b ∈ l2 := by
  have := List.mem_of_mem_take h
  simpa using this

theorem BufInv_congr {r r' : Recorder} (hb : ∀ s, r'.buffers s = r.buffers s)
    (ht : ∀ s, r'.truncFlag s = r.truncFlag s) (hm : r'.maxLineLength = r.maxLineLength)
    (h : BufInv r) : BufInv r' := by
  intro s
  rw [hb s, ht s, hm]
  exact h s

theorem writeRecord_good {orc : Nat → Bool} {r : Recorder} {now : DateTime} {src : Source}
    {d : List Nat} {tr : Bool} (hg : GoodState orc r)
    (htr : tr = true → ∃ pre e, pre.length = r.maxLineLength ∧ 0 < r.maxLineLength ∧
      (e = [] ∨ e = [10] ∨ e = [13, 10]) ∧ d = pre ++ e) :
    GoodState orc (r.writeRecord orc now src d tr).1 := by
  obtain ⟨⟨hpw, hbound, hcontig⟩, hbuf, hshape⟩ := hg
  cases hok : (r.writeRecord orc now src d tr).2 with
  | false =>
    rw [writeRecord_out_of_err hok]
    refine ⟨⟨hpw, ?_, ?_⟩, ?_, ?_⟩
    · intro rec hrec
      have h1 := hbound rec hrec
      show rec.Seq < r.seq + 1
      omega
    · intro hnf
      exfalso
      unfold Recorder.writeRecord at hok
      split at hok
      next hc => rw [hnf r.seq] at hc; simp at hc
      next => simp at hok
    · exact BufInv_congr (fun s => by cases s <;> rfl) (fun s => by cases s <;> rfl) rfl hbuf
    · exact shape_congr rfl rfl hshape
  | true =>
    rw [writeRecord_out_of_ok hok]
    have hseq1 : ({ NewRecord r.seq now src.str d with Truncated := tr } : Record).Seq
        = r.seq := NewRecord_Seq ..
    have hsrc1 : ({ NewRecord r.seq now src.str d with Truncated := tr } : Record).Source
        = src.str := NewRecord_Source ..
    refine ⟨⟨?_, ?_, ?_⟩, ?_, ?_⟩
    · show List.Pairwise (· < ·)
        ((r.out ++ [{ NewRecord r.seq now src.str d with Truncated := tr }]).map Record.Seq)
      rw [List.map_append, List.pairwise_append]
      refine ⟨hpw, by simp, ?_⟩
      intro a ha b hb
      simp only [List.map_cons, List.map_nil, List.mem_singleton] at hb
      rw [hb, hseq1]
      obtain ⟨rec, hrec, hval⟩ := List.mem_map.mp ha
      rw [← hval]
      exact hbound rec hrec
    · intro rec hrec
      replace hrec : rec ∈ r.out ++
          [{ NewRecord r.seq now src.str d with Truncated := tr }] := hrec
      show rec.Seq < r.seq + 1
      rcases List.mem_append.mp hrec with h | h
      · have := hbound rec h
        omega
      · rw [List.mem_singleton] at h
        subst h
        rw [hseq1]
        omega
    · intro hnf
      obtain ⟨h1, h2⟩ := hcontig hnf
      constructor
      · show r.seq + 1 =
          (r.out ++ [{ NewRecord r.seq now src.str d with Truncated := tr }]).length
        rw [List.length_append]
        simp [h1]
      · show (r.out ++ [{ NewRecord r.seq now src.str d with Truncated := tr }]).map
            Record.Seq = List.range
          (r.out ++ [{ NewRecord r.seq now src.str d with Truncated := tr }]).length
        rw [List.map_append, List.length_append]
        simp only [List.map_cons, List.map_nil, hseq1, List.length_cons, List.length_nil]
        rw [h2]
        have hr : List.range (r.out.length + (0 + 1)) = List.range r.out.length
            ++ [r.out.length] := by
          rw [Nat.zero_add, List.range_succ]
        rw [hr, h1]
        rw [NewRecord_Seq]
    · exact BufInv_congr (fun s => by cases s <;> rfl) (fun s => by cases s <;> rfl) rfl hbuf
    · intro rec hrec
      replace hrec : rec ∈ r.out ++
          [{ NewRecord r.seq now src.str d with Truncated := tr }] := hrec
      show RecShape r.maxLineLength rec
      rcases List.mem_append.mp hrec with h | h
      · exact hshape rec h
      · rw [List.mem_singleton] at h
        subst h
        refine ⟨?_, ?_, ?_, ?_⟩
        · show (NewRecord r.seq now src.str d).Encoding = "json" ∨
            (NewRecord r.seq now src.str d).Encoding = "text" ∨
            (NewRecord r.seq now src.str d).Encoding = "base64"
          exact NewRecord_encoding_cases ..
        · rw [hsrc1]
          cases src
          · left; rfl
          · right; left; rfl
          · right; right; rfl
        · show matchesTimestampPattern (NewRecord r.seq now src.str d).Timestamp = true
          rw [NewRecord_Timestamp]
          exact matchesTimestampPattern_format now
        · intro htrue
          have htt : tr = true := htrue
          obtain ⟨pre, e, hlen, hpos, hshape2, hd⟩ := htr htt
          subst htt
          subst hd
          refine ⟨hpos, now, pre, e, hlen, hshape2, ?_⟩
          rw [hseq1, hsrc1]

/-- Master invariant lemma for the record loop: invariants are preserved, the
configured limit is unchanged, the counter is monotone, other streams'
assembler state is untouched, and the newly appended records all carry an
empty terminator or one ending in LF. -/
theorem recordLoop_master (orc : Nat → Bool) (now : DateTime) (src : Source) :
    ∀ f (data : List Nat) (r r' : Recorder) (ok : Bool),
      Recorder.recordLoop orc now src f r data = (r', ok) → GoodState orc r →
      GoodState orc r' ∧ r'.maxLineLength = r.maxLineLength ∧ r.seq ≤ r'.seq ∧
      (∀ s, s ≠ src → r'.buffers s = r.buffers s ∧ r'.truncFlag s = r.truncFlag s) ∧
      ∃ tl, r'.out = r.out ++ tl ∧
        ∀ rec ∈ tl, rec.End = [] ∨ rec.End.getLast? = some 10 := by
  intro f
  induction f with
  | zero =>
    intro data r r' ok hEq hg
    rw [recordLoop_zero] at hEq
    injection hEq with h1 h2
    subst h1
    exact ⟨hg, rfl, le_refl _, fun s _ => ⟨rfl, rfl⟩, [], by simp, by simp⟩
  | succ f ih =>
    intro data r r' ok hEq hg
    cases data with
    | nil =>
      rw [recordLoop_nil] at hEq
      injection hEq with h1 h2
      subst h1
      exact ⟨hg, rfl, le_refl _, fun s _ => ⟨rfl, rfl⟩, [], by simp, by simp⟩
    | cons b rest =>
      have hne : b :: rest ≠ [] := by simp
      simp only [Recorder.recordLoop, if_neg hne, Recorder.writeTruncatedRecord] at hEq
      cases hnl : findNL (b :: rest) with
      | none =>
        simp only [hnl] at hEq
        have hnldata : (10 : Nat) ∉ b :: rest := findNL_eq_none_iff.mp hnl
        obtain ⟨hseqinv, hbuf, hshape⟩ := hg
        split at hEq
        · -- truncation mode, no newline: state unchanged
          injection hEq with h1 h2
          subst h1
          exact ⟨⟨hseqinv, hbuf, hshape⟩, rfl, le_refl _, fun s _ => ⟨rfl, rfl⟩, [],
            by simp, by simp⟩
        · next hflag =>
          split at hEq
          · next hcap =>
            -- cap the buffer at the limit and engage truncation mode
            injection hEq with h1 h2
            subst h1
            refine ⟨⟨?_, ?_, ?_⟩, by simp, by simp, ?_, [], by simp, by simp⟩
            · exact SeqInv_congr (by simp) (by simp) hseqinv
            · intro s
              by_cases hs : s = src
              · subst hs
                constructor
                · rw [buffers_setTrunc, buffers_setBuf_self]
                  intro hmem
                  rcases mem_take_append hmem with h | h
                  · exact (hbuf s).1 h
                  · exact hnldata h
                · intro _
                  rw [buffers_setTrunc, buffers_setBuf_self, max_setTrunc, max_setBuf]
                  rw [List.length_take]
                  exact ⟨by omega, hcap.1⟩
              · constructor
                · rw [buffers_setTrunc, buffers_setBuf_ne _ _ hs]
                  exact (hbuf s).1
                · rw [truncFlag_setTrunc_ne _ _ hs, truncFlag_setBuf, buffers_setTrunc,
                    buffers_setBuf_ne _ _ hs, max_setTrunc, max_setBuf]
                  exact (hbuf s).2
            · exact shape_congr (by simp) (by simp) hshape
            · intro s hs
              rw [buffers_setTrunc, buffers_setBuf_ne _ _ hs,
                truncFlag_setTrunc_ne _ _ hs]
              exact ⟨rfl, by simp⟩
          · next hcap =>
            -- plain accumulation
            injection hEq with h1 h2
            subst h1
            refine ⟨⟨?_, ?_, ?_⟩, by simp, by simp, ?_, [], by simp, by simp⟩
            · exact SeqInv_congr (by simp) (by simp) hseqinv
            · intro s
              by_cases hs : s = src
              · subst hs
                constructor
                · rw [buffers_setBuf_self]
                  intro hmem
                  rcases List.mem_append.mp hmem with h | h
                  · exact (hbuf s).1 h
                  · exact hnldata h
                · rw [truncFlag_setBuf]
                  intro hfl
                  exact absurd hfl (by simpa using hflag)
              · constructor
                · rw [buffers_setBuf_ne _ _ hs]
                  exact (hbuf s).1
                · rw [truncFlag_setBuf, buffers_setBuf_ne _ _ hs, max_setBuf]
                  exact (hbuf s).2
            · exact shape_congr (by simp) (by simp) hshape
            · intro s hs
              rw [buffers_setBuf_ne _ _ hs, truncFlag_setBuf]
              exact ⟨rfl, rfl⟩
      | some idx =>
        simp only [hnl] at hEq
        have htake10 : ((b :: rest).take (idx + 1)).getLast? = some 10 :=
          findNL_take_getLast hnl
        have htakene : (b :: rest).take (idx + 1) ≠ [] := by
          intro hc; rw [hc] at htake10; simp at htake10
        have hcomb10 : ∀ buf : List Nat,
            (buf ++ (b :: rest).take (idx + 1)).getLast? = some 10 := by
          intro buf; rw [getLast?_append_right htakene]; exact htake10
        split at hEq
        · next hflag =>
          -- truncation mode: emit the capped pending content
          have hending := extractLineEndingFromLine_of_last10 (hcomb10 (r.buffers src))
          have hd10 : (r.buffers src ++
              extractLineEnding (r.buffers src) ((b :: rest).take (idx + 1))).getLast?
              = some 10 := by
            unfold extractLineEnding
            rcases hending with he | he <;> rw [he] <;>
              rw [getLast?_append_right (by simp)] <;> simp
          have hgw : GoodState orc ((r.writeRecord orc now src (r.buffers src ++
              extractLineEnding (r.buffers src) ((b :: rest).take (idx + 1))) true).1) := by
            refine writeRecord_good hg ?_
            intro _
            refine ⟨r.buffers src,
              extractLineEnding (r.buffers src) ((b :: rest).take (idx + 1)),
              (hg.2.1 src |>.2 hflag).1, (hg.2.1 src |>.2 hflag).2, ?_, rfl⟩
            unfold extractLineEnding
            rcases hending with he | he <;> rw [he] <;> simp
          split at hEq
          · next hok =>
            -- write succeeded: clear the stream state and continue
            have hok2 : ((r.writeRecord orc now src (r.buffers src ++
                extractLineEnding (r.buffers src) ((b :: rest).take (idx + 1)))
                true).2) = true := hok
            have hw1 := writeRecord_out_of_ok hok2
            have hg2 : GoodState orc ((((r.writeRecord orc now src (r.buffers src ++
                extractLineEnding (r.buffers src) ((b :: rest).take (idx + 1)))
                true).1).setBuf src []).setTrunc src false) := by
              obtain ⟨hsw, hbw, hshw⟩ := hgw
              refine ⟨SeqInv_congr (by simp) (by simp) hsw, ?_,
                shape_congr (by simp) (by simp) hshw⟩
              intro s
              by_cases hs : s = src
              · subst hs
                rw [buffers_setTrunc, buffers_setBuf_self, truncFlag_setTrunc_self]
                exact ⟨by simp, by simp⟩
              · rw [buffers_setTrunc, buffers_setBuf_ne _ _ hs,
                  truncFlag_setTrunc_ne _ _ hs, truncFlag_setBuf, max_setTrunc, max_setBuf]
                exact hbw s
            obtain ⟨ihg, ihmax, ihseq, ihframe, tl2, ihout, ihend⟩ :=
              ih _ _ _ _ hEq hg2
            refine ⟨ihg, ?_, ?_, ?_, ?_⟩
            · rw [ihmax]
              simp
            · refine le_trans ?_ ihseq
              rw [seq_setTrunc, seq_setBuf, writeRecord_fst_seq]
              omega
            · intro s hs
              obtain ⟨hf1, hf2⟩ := ihframe s hs
              rw [hf1, hf2, buffers_setTrunc, buffers_setBuf_ne _ _ hs,
                truncFlag_setTrunc_ne _ _ hs, truncFlag_setBuf, writeRecord_fst_buffers,
                writeRecord_fst_truncFlag]
              exact ⟨rfl, rfl⟩
            · refine ⟨{ NewRecord r.seq now src.str (r.buffers src ++
                  extractLineEnding (r.buffers src) ((b :: rest).take (idx + 1)))
                  with Truncated := true } :: tl2, ?_, ?_⟩
              · rw [ihout, out_setTrunc, out_setBuf, hw1]
                simp
              · intro rec hrec
                rcases List.mem_cons.mp hrec with h | h
                · subst h
                  exact NewRecord_end_prop hd10
                · exact ihend rec h
          · next hok =>
            -- write failed: the call stops with the error
            have hok2 : ((r.writeRecord orc now src (r.buffers src ++
                extractLineEnding (r.buffers src) ((b :: rest).take (idx + 1)))
                true).2) = false := by
              simpa using hok
            have hw1 := writeRecord_out_of_err hok2
            injection hEq with h1 h2
            subst h1
            refine ⟨hgw, ?_, ?_, ?_, [], ?_, by simp⟩
            · rw [hw1]
            · rw [hw1]; simp
            · intro s hs
              rw [hw1]
              exact ⟨by cases s <;> rfl, by cases s <;> rfl⟩
            · rw [hw1]; simp
        · next hflag =>
          have hflag2 : r.truncFlag src = false := by simpa using hflag
          have hd10 : (r.buffers src ++ (b :: rest).take (idx + 1)).getLast? = some 10 :=
            hcomb10 (r.buffers src)
          have hending := extractLineEndingFromLine_of_last10 hd10
          have hgsb : GoodState orc (r.setBuf src []) := by
            obtain ⟨hseqinv, hbuf, hshape⟩ := hg
            refine ⟨SeqInv_congr (by simp) (by simp) hseqinv, ?_,
              shape_congr (by simp) (by simp) hshape⟩
            intro s
            by_cases hs : s = src
            · subst hs
              rw [buffers_setBuf_self, truncFlag_setBuf]
              refine ⟨by simp, ?_⟩
              intro hfl
              rw [hflag2] at hfl
              simp at hfl
            · rw [buffers_setBuf_ne _ _ hs, truncFlag_setBuf, max_setBuf]
              exact hbuf s
          split at hEq
          · next hcap =>
            -- line exceeds the limit: truncate to the first max bytes
            have hpremax : ((r.buffers src ++ (b :: rest).take (idx + 1)).take
                r.maxLineLength).length = r.maxLineLength := by
              rw [List.length_take]
              omega
            have hgw : GoodState orc (((r.setBuf src []).writeRecord orc now src
                (((r.buffers src ++ (b :: rest).take (idx + 1)).take r.maxLineLength) ++
                  extractLineEndingFromLine (r.buffers src ++ (b :: rest).take (idx + 1)))
                true).1) := by
              refine writeRecord_good hgsb ?_
              intro _
              refine ⟨(r.buffers src ++ (b :: rest).take (idx + 1)).take r.maxLineLength,
                extractLineEndingFromLine (r.buffers src ++ (b :: rest).take (idx + 1)),
                ?_, ?_, ?_, rfl⟩
              · rw [max_setBuf]
                exact hpremax
              · rw [max_setBuf]
                exact hcap.1
              · rcases hending with he | he <;> rw [he] <;> simp
            have he10 : (((r.buffers src ++ (b :: rest).take (idx + 1)).take
                r.maxLineLength) ++
                extractLineEndingFromLine (r.buffers src ++ (b :: rest).take (idx + 1))
                ).getLast? = some 10 := by
              rcases hending with he | he <;> rw [he] <;>
                rw [getLast?_append_right (by simp)] <;> simp
            split at hEq
            · next hok =>
              have hok2 : (((r.setBuf src []).writeRecord orc now src
                  (((r.buffers src ++ (b :: rest).take (idx + 1)).take r.maxLineLength) ++
                    extractLineEndingFromLine (r.buffers src ++ (b :: rest).take (idx + 1)))
                  true).2) = true := hok
              have hw1 := writeRecord_out_of_ok hok2
              obtain ⟨ihg, ihmax, ihseq, ihframe, tl2, ihout, ihend⟩ :=
                ih _ _ _ _ hEq hgw
              refine ⟨ihg, ?_, ?_, ?_, ?_⟩
              · rw [ihmax, writeRecord_fst_max, max_setBuf]
              · refine le_trans ?_ ihseq
                rw [writeRecord_fst_seq, seq_setBuf]
                omega
              · intro s hs
                obtain ⟨hf1, hf2⟩ := ihframe s hs
                rw [hf1, hf2, writeRecord_fst_buffers, writeRecord_fst_truncFlag,
                  buffers_setBuf_ne _ _ hs, truncFlag_setBuf]
                exact ⟨rfl, rfl⟩
              · refine ⟨{ NewRecord (r.setBuf src []).seq now src.str
                    (((r.buffers src ++ (b :: rest).take (idx + 1)).take r.maxLineLength) ++
                      extractLineEndingFromLine (r.buffers src ++
                        (b :: rest).take (idx + 1)))
                    with Truncated := true } :: tl2, ?_, ?_⟩
                · rw [ihout, hw1]
                  simp
                · intro rec hrec
                  rcases List.mem_cons.mp hrec with h | h
                  · subst h
                    exact NewRecord_end_prop he10
                  · exact ihend rec h
            · next hok =>
              have hok2 : (((r.setBuf src []).writeRecord orc now src
                  (((r.buffers src ++ (b :: rest).take (idx + 1)).take r.maxLineLength) ++
                    extractLineEndingFromLine (r.buffers src ++ (b :: rest).take (idx + 1)))
                  true).2) = false := by
                simpa using hok
              have hw1 := writeRecord_out_of_err hok2
              injection hEq with h1 h2
              subst h1
              refine ⟨hgw, ?_, ?_, ?_, [], ?_, by simp⟩
              · rw [hw1]
                simp
              · rw [hw1]
                simp
              · intro s hs
                rw [hw1]
                refine ⟨?_, ?_⟩
                · have : ({ (r.setBuf src []) with seq := (r.setBuf src []).seq + 1 } :
                      Recorder).buffers s = (r.setBuf src []).buffers s := by
                    cases s <;> rfl
                  rw [this, buffers_setBuf_ne _ _ hs]
                · have : ({ (r.setBuf src []) with seq := (r.setBuf src []).seq + 1 } :
                      Recorder).truncFlag s = (r.setBuf src []).truncFlag s := by
                    cases s <;> rfl
                  rw [this, truncFlag_setBuf]
              · rw [hw1]
                simp
          · next hcap =>
            -- line within the limit: emit it unchanged
            have hgw : GoodState orc (((r.setBuf src []).writeRecord orc now src
                (r.buffers src ++ (b :: rest).take (idx + 1)) false).1) := by
              refine writeRecord_good hgsb ?_
              intro h
              simp at h
            split at hEq
            · next hok =>
              have hok2 : (((r.setBuf src []).writeRecord orc now src
                  (r.buffers src ++ (b :: rest).take (idx + 1)) false).2) = true := hok
              have hw1 := writeRecord_out_of_ok hok2
              obtain ⟨ihg, ihmax, ihseq, ihframe, tl2, ihout, ihend⟩ :=
                ih _ _ _ _ hEq hgw
              refine ⟨ihg, ?_, ?_, ?_, ?_⟩
              · rw [ihmax, writeRecord_fst_max, max_setBuf]
              · refine le_trans ?_ ihseq
                rw [writeRecord_fst_seq, seq_setBuf]
                omega
              · intro s hs
                obtain ⟨hf1, hf2⟩ := ihframe s hs
                rw [hf1, hf2, writeRecord_fst_buffers, writeRecord_fst_truncFlag,
                  buffers_setBuf_ne _ _ hs, truncFlag_setBuf]
                exact ⟨rfl, rfl⟩
              · refine ⟨{ NewRecord (r.setBuf src []).seq now src.str
                    (r.buffers src ++ (b :: rest).take (idx + 1))
                    with Truncated := false } :: tl2, ?_, ?_⟩
                · rw [ihout, hw1]
                  simp
                · intro rec hrec
                  rcases List.mem_cons.mp hrec with h | h
                  · subst h
                    exact NewRecord_end_prop hd10
                  · exact ihend rec h
            · next hok =>
              have hok2 : (((r.setBuf src []).writeRecord orc now src
                  (r.buffers src ++ (b :: rest).take (idx + 1)) false).2) = false := by
                simpa using hok
              have hw1 := writeRecord_out_of_err hok2
              injection hEq with h1 h2
              subst h1
              refine ⟨hgw, ?_, ?_, ?_, [], ?_, by simp⟩
              · rw [hw1]
                simp
              · rw [hw1]
                simp
              · intro s hs
                rw [hw1]
                refine ⟨?_, ?_⟩
                · have : ({ (r.setBuf src []) with seq := (r.setBuf src []).seq + 1 } :
                      Recorder).buffers s = (r.setBuf src []).buffers s := by
                    cases s <;> rfl
                  rw [this, buffers_setBuf_ne _ _ hs]
                · have : ({ (r.setBuf src []) with seq := (r.setBuf src []).seq + 1 } :
                      Recorder).truncFlag s = (r.setBuf src []).truncFlag s := by
                    cases s <;> rfl
                  rw [this, truncFlag_setBuf]
              · rw [hw1]
                simp

/-- Invariant preservation and frame facts for `Flush`. -/
theorem Flush_master (orc : Nat → Bool) (now : DateTime) (src : Source)
    (r r' : Recorder) (ok : Bool) (hEq : r.Flush orc now src = (r', ok))
    (hg : GoodState orc r) :
    GoodState orc r' ∧ r'.maxLineLength = r.maxLineLength ∧ r.seq ≤ r'.seq ∧
      (∀ s, s ≠ src → r'.buffers s = r.buffers s ∧ r'.truncFlag s = r.truncFlag s) ∧
      ∃ tl, r'.out = r.out ++ tl := by
  obtain ⟨hseqinv, hbuf, hshape⟩ := hg
  simp only [Recorder.Flush, Recorder.writeTruncatedRecord] at hEq
  split at hEq
  · -- empty pending buffer: only the flag is reset
    injection hEq with h1 h2
    subst h1
    refine ⟨⟨SeqInv_congr (by simp) (by simp) hseqinv, ?_,
      shape_congr (by simp) (by simp) hshape⟩, by simp, by simp, ?_, [], by simp⟩
    · intro s
      by_cases hs : s = src
      · subst hs
        rw [buffers_setTrunc, truncFlag_setTrunc_self]
        exact ⟨(hbuf s).1, by simp⟩
      · rw [buffers_setTrunc, truncFlag_setTrunc_ne _ _ hs, max_setTrunc]
        exact hbuf s
    · intro s hs
      rw [buffers_setTrunc, truncFlag_setTrunc_ne _ _ hs]
      exact ⟨rfl, rfl⟩
  · next hbe =>
    have hg0 : GoodState orc ((r.setBuf src []).setTrunc src false) := by
      refine ⟨SeqInv_congr (by simp) (by simp) hseqinv, ?_,
        shape_congr (by simp) (by simp) hshape⟩
      intro s
      by_cases hs : s = src
      · subst hs
        rw [buffers_setTrunc, buffers_setBuf_self, truncFlag_setTrunc_self]
        exact ⟨by simp, by simp⟩
      · rw [buffers_setTrunc, buffers_setBuf_ne _ _ hs, truncFlag_setTrunc_ne _ _ hs,
          truncFlag_setBuf, max_setTrunc, max_setBuf]
        exact hbuf s
    split at hEq
    · next hflag =>
      -- truncation mode: final record is the capped content, truncated = true
      have hgw : GoodState orc ((((r.setBuf src []).setTrunc src false).writeRecord orc
          now src (r.buffers src ++ []) true).1) := by
        refine writeRecord_good hg0 ?_
        intro _
        refine ⟨r.buffers src, [], ?_, ?_, Or.inl rfl, rfl⟩
        · rw [max_setTrunc, max_setBuf]
          exact ((hbuf src).2 hflag).1
        · rw [max_setTrunc, max_setBuf]
          exact ((hbuf src).2 hflag).2
      have h1 : ((((r.setBuf src []).setTrunc src false).writeRecord orc
          now src (r.buffers src ++ []) true).1) = r' := by rw [hEq]
      rw [← h1]
      refine ⟨hgw, by simp, by simp, ?_, ?_⟩
      · intro s hs
        rw [writeRecord_fst_buffers, writeRecord_fst_truncFlag, buffers_setTrunc,
          buffers_setBuf_ne _ _ hs, truncFlag_setTrunc_ne _ _ hs, truncFlag_setBuf]
        exact ⟨rfl, rfl⟩
      · rcases writeRecord_fst_out orc ((r.setBuf src []).setTrunc src false) now src
            (r.buffers src ++ []) true with h | h
        · exact ⟨[], by rw [h]; simp⟩
        · refine ⟨[{ NewRecord ((r.setBuf src []).setTrunc src false).seq now src.str
            (r.buffers src ++ []) with Truncated := true }], by rw [h]; simp⟩
    · next hflag =>
      have hgw : GoodState orc ((((r.setBuf src []).setTrunc src false).writeRecord orc
          now src (r.buffers src) false).1) := by
        refine writeRecord_good hg0 ?_
        intro h
        simp at h
      have h1 : ((((r.setBuf src []).setTrunc src false).writeRecord orc
          now src (r.buffers src) false).1) = r' := by rw [hEq]
      rw [← h1]
      refine ⟨hgw, by simp, by simp, ?_, ?_⟩
      · intro s hs
        rw [writeRecord_fst_buffers, writeRecord_fst_truncFlag, buffers_setTrunc,
          buffers_setBuf_ne _ _ hs, truncFlag_setTrunc_ne _ _ hs, truncFlag_setBuf]
        exact ⟨rfl, rfl⟩
      · rcases writeRecord_fst_out orc ((r.setBuf src []).setTrunc src false) now src
            (r.buffers src) false with h | h
        · exact ⟨[], by rw [h]; simp⟩
        · refine ⟨[{ NewRecord ((r.setBuf src []).setTrunc src false).seq now src.str
            (r.buffers src) with Truncated := false }], by rw [h]; simp⟩

/-- Invariant preservation and frame facts for the public `Record` operation. -/
theorem Record_master (orc : Nat → Bool) (now : DateTime) (src : Source)
    (data : List Nat) (r r' : Recorder) (ok : Bool)
    (hEq : r.Record orc now src data = (r', ok)) (hg : GoodState orc r) :
    GoodState orc r' ∧ r'.maxLineLength = r.maxLineLength ∧ r.seq ≤ r'.seq ∧
      (∀ s, s ≠ src → r'.buffers s = r.buffers s ∧ r'.truncFlag s = r.truncFlag s) ∧
      ∃ tl, r'.out = r.out ++ tl ∧
        ∀ rec ∈ tl, rec.End = [] ∨ rec.End.getLast? = some 10 := by
  unfold Recorder.Record at hEq
  split at hEq
  · injection hEq with h1 h2
    subst h1
    exact ⟨hg, rfl, le_refl _, fun s _ => ⟨rfl, rfl⟩, [], by simp, by simp⟩
  · exact recordLoop_master orc now src data.length data r r' ok hEq hg

/-- Invariant preservation for a single external operation. -/
theorem runOp_good (orc : Nat → Bool) (r : Recorder) (op : Op) (hg : GoodState orc r) :
    GoodState orc (runOp orc r op) ∧
      (runOp orc r op).maxLineLength = r.maxLineLength ∧
      ∃ tl, (runOp orc r op).out = r.out ++ tl := by
  cases op with
  | feed now src data =>
    obtain ⟨h1, h2, _, _, tl, h5, _⟩ :=
      Record_master orc now src data r (r.Record orc now src data).1
        (r.Record orc now src data).2 Prod.mk.eta.symm hg
    exact ⟨h1, h2, tl, h5⟩
  | flush now src =>
    obtain ⟨h1, h2, _, _, tl, h5⟩ :=
      Flush_master orc now src r (r.Flush orc now src).1
        (r.Flush orc now src).2 Prod.mk.eta.symm hg
    exact ⟨h1, h2, tl, h5⟩

/-- Invariant preservation over a whole run. -/
theorem runOps_good (orc : Nat → Bool) :
    ∀ (ops : List Op) (r : Recorder), GoodState orc r →
      GoodState orc (runOps orc ops r) ∧
        (runOps orc ops r).maxLineLength = r.maxLineLength ∧
        ∃ tl, (runOps orc ops r).out = r.out ++ tl := by
  intro ops
  induction ops with
  | nil => exact fun r hg => ⟨hg, rfl, [], by simp [runOps]⟩
  | cons op rest ih =>
    intro r hg
    obtain ⟨h1, h2, tl1, h3⟩ := runOp_good orc r op hg
    obtain ⟨h4, h5, tl2, h6⟩ := ih (runOp orc r op) h1
    have hstep : runOps orc (op :: rest) r = runOps orc rest (runOp orc r op) := rfl
    rw [hstep]
    refine ⟨h4, by rw [h5, h2], tl1 ++ tl2, ?_⟩
    rw [h6, h3, List.append_assoc]

/-- The fresh recorder state satisfies all invariants. -/
theorem initRecorder_good (orc : Nat → Bool) (max : Nat) :
    GoodState orc (initRecorder max) := by
  refine ⟨⟨?_, ?_, ?_⟩, ?_, ?_⟩
  · simp [initRecorder]
  · intro rec hrec
    simp [initRecorder] at hrec
  · intro _
    simp [initRecorder]
  · intro s
    cases s <;> simp [initRecorder, Recorder.buffers, Recorder.truncFlag]
  · intro rec hrec
    simp [initRecorder] at hrec

/-- When a chunk contains no LF, the loop emits nothing: the sink and the
counter are unchanged, only the fed stream's assembler state may change, and
the call succeeds. -/
theorem recordLoop_noNL (orc : Nat → Bool) (now : DateTime) (src : Source) :
    ∀ f (data : List Nat) (r r' : Recorder) (ok : Bool),
      Recorder.recordLoop orc now src f r data = (r', ok) → findNL data = none →
      ok = true ∧ r'.out = r.out ∧ r'.seq = r.seq ∧
      (∀ s, s ≠ src → r'.buffers s = r.buffers s ∧ r'.truncFlag s = r.truncFlag s) := by
  intro f data r r' ok hEq hnl
  cases f with
  | zero =>
    rw [recordLoop_zero] at hEq
    injection hEq with h1 h2
    subst h1
    exact ⟨h2.symm, rfl, rfl, fun s _ => ⟨rfl, rfl⟩⟩
  | succ f =>
    cases data with
    | nil =>
      rw [recordLoop_nil] at hEq
      injection hEq with h1 h2
      subst h1
      exact ⟨h2.symm, rfl, rfl, fun s _ => ⟨rfl, rfl⟩⟩
    | cons b rest =>
      have hne : b :: rest ≠ [] := by simp
      simp only [Recorder.recordLoop, if_neg hne, hnl] at hEq
      split at hEq
      · injection hEq with h1 h2
        subst h1
        exact ⟨h2.symm, rfl, rfl, fun s _ => ⟨rfl, rfl⟩⟩
      · split at hEq
        · injection hEq with h1 h2
          subst h1
          refine ⟨h2.symm, by simp, by simp, ?_⟩
          intro s hs
          rw [buffers_setTrunc, buffers_setBuf_ne _ _ hs, truncFlag_setTrunc_ne _ _ hs,
            truncFlag_setBuf]
          exact ⟨rfl, rfl⟩
        · injection hEq with h1 h2
          subst h1
          refine ⟨h2.symm, by simp, by simp, ?_⟩
          intro s hs
          rw [buffers_setBuf_ne _ _ hs, truncFlag_setBuf]
          exact ⟨rfl, rfl⟩

/-- `Record` on an LF-free chunk: no record, no counter change, other
streams untouched, success. -/
theorem Record_noNL (orc : Nat → Bool) (now : DateTime) (src : Source)
    (data : List Nat) (r r' : Recorder) (ok : Bool)
    (hEq : r.Record orc now src data = (r', ok)) (hnl : findNL data = none) :
    ok = true ∧ r'.out = r.out ∧ r'.seq = r.seq ∧
      (∀ s, s ≠ src → r'.buffers s = r.buffers s ∧ r'.truncFlag s = r.truncFlag s) := by
  unfold Recorder.Record at hEq
  split at hEq
  · injection hEq with h1 h2
    subst h1
    exact ⟨h2.symm, rfl, rfl, fun s _ => ⟨rfl, rfl⟩⟩
  · exact recordLoop_noNL orc now src data.length data r r' ok hEq hnl

/-- Concrete timestamp used by witnesses and counterexamples. -/
def dt0 : DateTime := ⟨2024, 1, 2, 3, 4, 5, 6⟩

/-! ### Claim theorems -/

/-- C1: for any sequence of Record/Flush operations on a sink where every
write succeeds, the `seq` values of the written records — across all three
stream identities — are exactly `0, …, N-1` in the order the records were
written (hence pairwise distinct and contiguous). -/
theorem c1_seq_unique_contiguous (max : Nat) (ops : List Op) :
    (runOps noFail ops (initRecorder max)).out.map Record.Seq =
      List.range (runOps noFail ops (initRecorder max)).out.length := by
  obtain ⟨⟨_, _, hcontig⟩, _, _⟩ :=
    (runOps_good noFail ops (initRecorder max) (initRecorder_good noFail max)).1
  exact (hcontig (fun _ => rfl)).2

/-- C2 counterexample: with limit 4, feeding the single line `"ab\r\r\n"`
emits exactly one record with `truncated = true` whose content byte length is
2, not 4 — the capped prefix `"ab\r\r"` loses its trailing CRs to the
terminator field during classification, so the content is shorter than the
configured limit, contradicting the claim's "equals exactly the limit". -/
theorem c2_counterexample :
    ((runOps noFail [Op.feed dt0 Source.stdout [97, 98, 13, 13, 10]]
        (initRecorder 4)).out.map
      (fun rec => (rec.Truncated, rec.Encoding, rec.Content.bytes.length)))
      = [(true, "text", 2)] := by decide

/-- C2 (amended): whenever a record is emitted with `truncated = true` the
limit is positive and the record classifies a capped prefix of EXACTLY
`limit` bytes plus a recovered terminator (empty, LF, or CRLF); consequently
a text-classified truncated record's content is at most `limit` bytes (it can
be shorter when trailing CR/LF bytes of the capped prefix are stripped into
the terminator).  When the limit is 0, no record is ever truncated. -/
theorem c2_truncation_exact_cap (orc : Nat → Bool) (max : Nat) (ops : List Op) :
    (∀ rec ∈ (runOps orc ops (initRecorder max)).out, rec.Truncated = true →
      0 < max ∧ ∃ dt pre e, pre.length = max ∧ (e = [] ∨ e = [10] ∨ e = [13, 10]) ∧
        rec = { NewRecord rec.Seq dt rec.Source (pre ++ e) with Truncated := true } ∧
        (rec.Encoding = "text" → rec.Content.bytes.length ≤ max)) ∧
    (max = 0 → ∀ rec ∈ (runOps orc ops (initRecorder max)).out, rec.Truncated = false) := by
  obtain ⟨⟨_, _, _⟩, _, hshape⟩ :=
    (runOps_good orc ops (initRecorder max) (initRecorder_good orc max)).1
  have hmax : (runOps orc ops (initRecorder max)).maxLineLength = max :=
    (runOps_good orc ops (initRecorder max) (initRecorder_good orc max)).2.1
  constructor
  · intro rec hrec htr
    obtain ⟨_, _, _, hprov⟩ := hshape rec hrec
    rw [hmax] at hprov
    obtain ⟨hpos, dt, pre, e, hlen, hesh, heq⟩ := hprov htr
    refine ⟨hpos, dt, pre, e, hlen, hesh, heq, ?_⟩
    intro htext
    have htext2 : (NewRecord rec.Seq dt rec.Source (pre ++ e)).Encoding = "text" := by
      rw [heq] at htext
      exact htext
    obtain ⟨hc, _⟩ := NewRecord_text_fields htext2
    have hcb : rec.Content.bytes = (splitTrailingCRLF (pre ++ e)).1 := by
      rw [heq]
      show (NewRecord rec.Seq dt rec.Source (pre ++ e)).Content.bytes = _
      rw [hc]
      rfl
    rw [hcb, ← hlen]
    refine splitTrailingCRLF_content_le ?_
    intro x hx
    rcases hesh with h | h | h <;> subst h <;> simp at hx ⊢
    · omega
    · rcases hx with h | h <;> omega
  · intro h0 rec hrec
    obtain ⟨_, _, _, hprov⟩ := hshape rec hrec
    rw [hmax, h0] at hprov
    cases htr : rec.Truncated with
    | false => rfl
    | true =>
      obtain ⟨hpos, _⟩ := hprov htr
      omega

/-- C2 witness: a concrete truncated record (limit 2, line `"abc\n"`) and a
concrete record of an unlimited run, instantiating both parts of the amended
claim. -/
theorem c2_witness :
    (0 < 2 ∧ ∃ dt pre e, pre.length = 2 ∧ (e = [] ∨ e = [10] ∨ e = [13, 10]) ∧
      ({ NewRecord 0 dt0 Source.stdout.str [97, 98, 10] with Truncated := true } : Record)
        = { NewRecord
            ({ NewRecord 0 dt0 Source.stdout.str [97, 98, 10] with
                Truncated := true } : Record).Seq dt
            ({ NewRecord 0 dt0 Source.stdout.str [97, 98, 10] with
                Truncated := true } : Record).Source (pre ++ e) with Truncated := true } ∧
        (({ NewRecord 0 dt0 Source.stdout.str [97, 98, 10] with
            Truncated := true } : Record).Encoding = "text" →
          ({ NewRecord 0 dt0 Source.stdout.str [97, 98, 10] with
            Truncated := true } : Record).Content.bytes.length ≤ 2)) ∧
    ({ NewRecord 0 dt0 Source.stdout.str [97, 10] with Truncated := false } :
        Record).Truncated = false :=
  ⟨(c2_truncation_exact_cap noFail 2
      [Op.feed dt0 Source.stdout [97, 98, 99, 10]]).1
      { NewRecord 0 dt0 Source.stdout.str [97, 98, 10] with Truncated := true }
      (by decide) (by decide),
   (c2_truncation_exact_cap noFail 0 [Op.feed dt0 Source.stdout [97, 10]]).2 rfl
      { NewRecord 0 dt0 Source.stdout.str [97, 10] with Truncated := false }
      (by decide)⟩

/-- C8: a failing serialize/write returns the error to the caller, drops the
record from the output, and still advances the sequence counter by one; and
in every run (with any pattern of write failures) the sequence numbers in the
sink are strictly increasing, so a failed record's number is never reused and
no number is duplicated. -/
theorem c8_write_failure_atomic :
    (∀ (orc : Nat → Bool) (r : Recorder) (now : DateTime) (src : Source)
      (d : List Nat) (tr : Bool), orc r.seq = true →
        r.writeRecord orc now src d tr = ({ r with seq := r.seq + 1 }, false)) ∧
    (∀ (orc : Nat → Bool) (max : Nat) (ops : List Op),
      List.Pairwise (· < ·) ((runOps orc ops (initRecorder max)).out.map Record.Seq)) := by
  constructor
  · intro orc r now src d tr h
    unfold Recorder.writeRecord
    rw [if_pos h]
  · intro orc max ops
    exact ((runOps_good orc ops (initRecorder max) (initRecorder_good orc max)).1).1.1

/-- C8 witness: a concrete failing write advances the counter and appends
nothing, and a concrete all-failing run keeps distinct sequence numbers. -/
theorem c8_witness :
    Recorder.writeRecord (fun _ => true) (initRecorder 0) dt0 Source.stdout [97] false
      = ({ initRecorder 0 with seq := 1 }, false) ∧
    List.Pairwise (· < ·) ((runOps (fun _ => true)
      [Op.feed dt0 Source.stdout [97, 10]] (initRecorder 0)).out.map Record.Seq) :=
  ⟨c8_write_failure_atomic.1 (fun _ => true) (initRecorder 0) dt0 Source.stdout [97]
      false rfl,
   c8_write_failure_atomic.2 (fun _ => true) 0 [Op.feed dt0 Source.stdout [97, 10]]⟩

/-- C9: every record written to the sink (modelled as one serialized object
per sink entry) carries the fields `seq`, `timestamp`, `source`, `content`,
`encoding` in order, with `end` omitted exactly when the terminator is empty
and `truncated` omitted exactly when false (present as literal `true`
otherwise); the timestamp matches `YYYY-MM-DDTHH:MM:SS.mmmZ`, the source is
one of `stdin`/`stdout`/`stderr` and the encoding one of
`text`/`json`/`base64`.  The hypothesis restricts to calendar-range
timestamps, where the model of Go's `Format` is exact. -/
theorem c9_record_format (orc : Nat → Bool) (max : Nat) (ops : List Op)
    (_hdt : ∀ op ∈ ops, ValidDT op.dt) :
    ∀ rec ∈ (runOps orc ops (initRecorder max)).out,
      marshalJSON rec =
        [("seq", JField.num rec.Seq), ("timestamp", JField.strBytes rec.Timestamp),
         ("source", JField.str rec.Source), ("content", JField.contentVal rec.Content),
         ("encoding", JField.str rec.Encoding)] ++
        (if rec.End = [] then [] else [("end", JField.strBytes rec.End)]) ++
        (if rec.Truncated then [("truncated", JField.boolLit true)] else []) ∧
      matchesTimestampPattern rec.Timestamp = true ∧
      (rec.Source = "stdin" ∨ rec.Source = "stdout" ∨ rec.Source = "stderr") ∧
      (rec.Encoding = "text" ∨ rec.Encoding = "json" ∨ rec.Encoding = "base64") := by
  intro rec hrec
  obtain ⟨_, _, hshape⟩ :=
    (runOps_good orc ops (initRecorder max) (initRecorder_good orc max)).1
  obtain ⟨henc, hsrc, hts, _⟩ := hshape rec hrec
  exact ⟨rfl, hts, hsrc, by tauto⟩

/-- C9 witness: a concrete valid-timestamp run and its record. -/
theorem c9_witness :
    marshalJSON ({ NewRecord 0 dt0 Source.stdout.str [97, 10] with Truncated := false })
      = [("seq", JField.num 0),
         ("timestamp", JField.strBytes (formatTimestamp dt0)),
         ("source", JField.str "stdout"),
         ("content", JField.contentVal (RContent.textC [97])),
         ("encoding", JField.str "text"),
         ("end", JField.strBytes [10])] ∧
    matchesTimestampPattern
      ({ NewRecord 0 dt0 Source.stdout.str [97, 10] with Truncated := false } :
        Record).Timestamp = true := by
  have h := c9_record_format noFail 0 [Op.feed dt0 Source.stdout [97, 10]]
    (by intro op hop; simp at hop; subst hop; show ValidDT dt0; decide)
    { NewRecord 0 dt0 Source.stdout.str [97, 10] with Truncated := false } (by decide)
  exact ⟨by decide, h.2.1⟩

/-- C10: a feed chunk containing no LF byte emits no record and leaves the
sink, the counter, and the other streams' assembler state unchanged (only the
fed stream's buffer and flag may change), and the call succeeds; moreover no
feed call ever emits a record whose terminator is a lone CR — terminators of
feed-emitted records are empty or end in LF — so such a record can only come
from Flush. -/
theorem c10_lf_only_line_completion :
    (∀ (orc : Nat → Bool) (r : Recorder) (now : DateTime) (src : Source)
      (data : List Nat), findNL data = none →
        (r.Record orc now src data).2 = true ∧
        (r.Record orc now src data).1.out = r.out ∧
        (r.Record orc now src data).1.seq = r.seq ∧
        (∀ s, s ≠ src → (r.Record orc now src data).1.buffers s = r.buffers s ∧
          (r.Record orc now src data).1.truncFlag s = r.truncFlag s)) ∧
    (∀ (orc : Nat → Bool) (max : Nat) (ops : List Op) (now : DateTime) (src : Source)
      (data : List Nat) (rec : Record),
        rec ∈ ((runOps orc ops (initRecorder max)).Record orc now src data).1.out →
        rec ∈ (runOps orc ops (initRecorder max)).out ∨
          (rec.End ≠ [13] ∧ (rec.End = [] ∨ rec.End.getLast? = some 10))) := by
  constructor
  · intro orc r now src data hnl
    exact Record_noNL orc now src data r (r.Record orc now src data).1
      (r.Record orc now src data).2 Prod.mk.eta.symm hnl
  · intro orc max ops now src data rec hrec
    obtain ⟨_, _, _, _, tl, hout, hend⟩ :=
      Record_master orc now src data (runOps orc ops (initRecorder max))
        ((runOps orc ops (initRecorder max)).Record orc now src data).1
        ((runOps orc ops (initRecorder max)).Record orc now src data).2
        Prod.mk.eta.symm
        (runOps_good orc ops (initRecorder max) (initRecorder_good orc max)).1
    rw [hout] at hrec
    rcases List.mem_append.mp hrec with h | h
    · exact Or.inl h
    · right
      have he := hend rec h
      refine ⟨?_, he⟩
      rcases he with he1 | he1
      · rw [he1]; simp
      · intro hc
        rw [hc] at he1
        simp at he1

/-- C10 witness: a CR-only chunk emits nothing and changes nothing besides
the fed stream's buffer; and a concrete emitted record's terminator ends in
LF, not a lone CR. -/
theorem c10_witness :
    (((initRecorder 0).Record noFail dt0 Source.stdout [97, 13]).2 = true ∧
      ((initRecorder 0).Record noFail dt0 Source.stdout [97, 13]).1.out
        = (initRecorder 0).out ∧
      ((initRecorder 0).Record noFail dt0 Source.stdout [97, 13]).1.seq
        = (initRecorder 0).seq ∧
      (∀ s, s ≠ Source.stdout →
        ((initRecorder 0).Record noFail dt0 Source.stdout [97, 13]).1.buffers s
          = (initRecorder 0).buffers s ∧
        ((initRecorder 0).Record noFail dt0 Source.stdout [97, 13]).1.truncFlag s
          = (initRecorder 0).truncFlag s)) ∧
    (({ NewRecord 0 dt0 Source.stdout.str [97, 10] with Truncated := false } : Record)
        ∈ (runOps noFail [] (initRecorder 0)).out ∨
      (({ NewRecord 0 dt0 Source.stdout.str [97, 10] with
          Truncated := false } : Record).End ≠ [13] ∧
        (({ NewRecord 0 dt0 Source.stdout.str [97, 10] with
            Truncated := false } : Record).End = [] ∨
          ({ NewRecord 0 dt0 Source.stdout.str [97, 10] with
            Truncated := false } : Record).End.getLast? = some 10))) :=
  ⟨c10_lf_only_line_completion.1 noFail (initRecorder 0) dt0 Source.stdout [97, 13]
      (by decide),
   c10_lf_only_line_completion.2 noFail 0 [] dt0 Source.stdout [97, 10]
      { NewRecord 0 dt0 Source.stdout.str [97, 10] with Truncated := false }
      (by decide)⟩

/-- C3: feeding one complete line `l ++ LF` (no interior LF, fresh stream
state, positive limit, successful write): when the line's total byte length
including its terminator equals the limit exactly, the record is emitted with
`truncated = false` and classifies the unchanged line; when the total length
exceeds the limit, the record is emitted with `truncated = true` and
classifies the first `limit` bytes of the line plus the terminator recovered
from the untruncated line. -/
theorem c3_truncation_boundary (orc : Nat → Bool) (now : DateTime) (src : Source)
    (r : Recorder) (l : List Nat)
    (hb : r.buffers src = []) (hf : r.truncFlag src = false) (hnl : findNL l = none)
    (hpos : 0 < r.maxLineLength) (hok : orc r.seq = false) :
    ((l ++ [10]).length = r.maxLineLength →
      (r.Record orc now src (l ++ [10])).1.out =
        r.out ++ [{ NewRecord r.seq now src.str (l ++ [10]) with Truncated := false }] ∧
      (r.Record orc now src (l ++ [10])).2 = true) ∧
    (r.maxLineLength < (l ++ [10]).length →
      (r.Record orc now src (l ++ [10])).1.out =
        r.out ++ [{ NewRecord r.seq now src.str
          ((l ++ [10]).take r.maxLineLength ++ extractLineEndingFromLine (l ++ [10]))
          with Truncated := true }] ∧
      (r.Record orc now src (l ++ [10])).2 = true) := by
  have hne : l ++ [10] ≠ [] := by simp
  have hlen : (l ++ [10]).length = l.length + 1 := by simp
  have htake : (l ++ [10]).take (l.length + 1) = l ++ [10] := by
    rw [show l.length + 1 = (l ++ [10]).length by simp, List.take_length]
  have hdrop : (l ++ [10]).drop (l.length + 1) = [] := by
    rw [show l.length + 1 = (l ++ [10]).length by simp, List.drop_length]
  constructor
  · intro hcase
    obtain ⟨res, hE⟩ : ∃ p, r.Record orc now src (l ++ [10]) = p := ⟨_, rfl⟩
    rw [hE]
    unfold Recorder.Record at hE
    rw [if_neg hne, hlen] at hE
    simp only [Recorder.recordLoop, if_neg hne, Recorder.writeTruncatedRecord,
      findNL_append_singleton hnl, hf, Bool.false_eq_true, if_false, hb, htake, hdrop,
      List.nil_append, recordLoop_nil] at hE
    have hcond : ¬(0 < r.maxLineLength ∧ r.maxLineLength < (l ++ [10]).length) := by
      omega
    rw [if_neg hcond] at hE
    have hw : ((r.setBuf src []).writeRecord orc now src (l ++ [10]) false).2 = true := by
      unfold Recorder.writeRecord
      rw [seq_setBuf, if_neg (by rw [hok]; simp)]
    rw [if_pos hw] at hE
    have hw1 := writeRecord_out_of_ok hw
    have hres1 : res.1 = ((r.setBuf src []).writeRecord orc now src (l ++ [10]) false).1 := by
      rw [← hE]
    have hres2 : res.2 = true := by rw [← hE]
    constructor
    · rw [hres1, hw1]
      simp
    · exact hres2
  · intro hcase
    obtain ⟨res, hE⟩ : ∃ p, r.Record orc now src (l ++ [10]) = p := ⟨_, rfl⟩
    rw [hE]
    unfold Recorder.Record at hE
    rw [if_neg hne, hlen] at hE
    simp only [Recorder.recordLoop, if_neg hne, Recorder.writeTruncatedRecord,
      findNL_append_singleton hnl, hf, Bool.false_eq_true, if_false, hb, htake, hdrop,
      List.nil_append, recordLoop_nil] at hE
    have hcond : 0 < r.maxLineLength ∧ r.maxLineLength < (l ++ [10]).length :=
      ⟨hpos, hcase⟩
    rw [if_pos hcond] at hE
    have hw : ((r.setBuf src []).writeRecord orc now src
        ((l ++ [10]).take r.maxLineLength ++ extractLineEndingFromLine (l ++ [10]))
        true).2 = true := by
      unfold Recorder.writeRecord
      rw [seq_setBuf, if_neg (by rw [hok]; simp)]
    rw [if_pos hw] at hE
    have hw1 := writeRecord_out_of_ok hw
    have hres1 : res.1 = ((r.setBuf src []).writeRecord orc now src
        ((l ++ [10]).take r.maxLineLength ++ extractLineEndingFromLine (l ++ [10]))
        true).1 := by
      rw [← hE]
    have hres2 : res.2 = true := by rw [← hE]
    constructor
    · rw [hres1, hw1]
      simp
    · exact hres2

/-- C3 witness: line `"a\n"` at limit 2 (exactly the limit: untruncated) and
at limit 1 (one byte over: truncated to the first byte plus the recovered
LF terminator). -/
theorem c3_witness :
    (((initRecorder 2).Record noFail dt0 Source.stdout ([97] ++ [10])).1.out =
        (initRecorder 2).out ++
          [{ NewRecord 0 dt0 Source.stdout.str ([97] ++ [10]) with Truncated := false }] ∧
      ((initRecorder 2).Record noFail dt0 Source.stdout ([97] ++ [10])).2 = true) ∧
    (((initRecorder 1).Record noFail dt0 Source.stdout ([97] ++ [10])).1.out =
        (initRecorder 1).out ++
          [{ NewRecord 0 dt0 Source.stdout.str
            (([97] ++ [10]).take 1 ++ extractLineEndingFromLine ([97] ++ [10]))
            with Truncated := true }] ∧
      ((initRecorder 1).Record noFail dt0 Source.stdout ([97] ++ [10])).2 = true) :=
  ⟨(c3_truncation_boundary noFail dt0 Source.stdout (initRecorder 2) [97] rfl rfl
      (by decide) (by decide) rfl).1 (by decide),
   (c3_truncation_boundary noFail dt0 Source.stdout (initRecorder 1) [97] rfl rfl
      (by decide) (by decide) rfl).2 (by decide)⟩

set_option maxRecDepth 100000 in
/-- C4 counterexample: the claim fails on the code in three ways.  First, the
line `"\xFF"` (a quoted raw byte 0xFF: bytes 34, 255, 34) is NOT valid UTF-8,
so by the claim it must be classified base64 — but the JSON scanner accepts
arbitrary non-control bytes inside string literals, so the code classifies it
`json`.  Second, the line NBSP `1` (bytes 194, 160, 49) is valid UTF-8 and its
ASCII-whitespace-trimmed form (itself) is not a JSON value, so by the claim it
must be `text` — but `bytes.TrimSpace` trims UNICODE whitespace, the NBSP is
removed, and the code classifies it `json`.  Third, the line `1e999` (bytes
49, 101, 57, 57, 57) is one well-formed JSON value, so by the claim it must be
`json` — but `json.Unmarshal` into `any` fails on it (the number overflows
`float64`), so the code falls through and classifies it `text`. -/
theorem c4_counterexample :
    (utf8Valid [34, 255, 34] = false ∧
      (NewRecord 0 dt0 "stdout" [34, 255, 34]).Encoding = "json") ∧
    (utf8Valid [194, 160, 49] = true ∧ jsonValid [194, 160, 49] = false ∧
      (NewRecord 0 dt0 "stdout" [194, 160, 49]).Encoding = "json") ∧
    (jsonValid [49, 101, 57, 57, 57] = true ∧
      unmarshalOk [49, 101, 57, 57, 57] = false ∧
      (NewRecord 0 dt0 "stdout" [49, 101, 57, 57, 57]).Encoding = "text") := by decide

/-- C4 (amended): classification follows the strict priority
json > text > base64 with Go semantics: a line whose UNICODE-whitespace
trimmed bytes are nonempty, form exactly one well-formed JSON value within the
scanner's 10000 nesting-depth limit (the grammar accepts arbitrary bytes
`≥ 0x20` inside string literals, so this can hold even for input that is not
valid UTF-8), and decode successfully into a Go value (`json.Unmarshal`, which
fails exactly when some number token overflows `float64`) is `json`; otherwise
a line of valid UTF-8 is `text`; otherwise the line is `base64`, with content
the standard base64 encoding of the entire raw byte sequence including any
terminator bytes and with an empty terminator field. -/
theorem c4_encoding_priority (seq : Nat) (t : DateTime) (src : String) (d : List Nat) :
    ((NewRecord seq t src d).Encoding = "json" ↔
      (trimSpace d ≠ [] ∧ jsonValid (trimSpace d) = true ∧
        unmarshalOk (trimSpace d) = true)) ∧
    ((NewRecord seq t src d).Encoding = "text" ↔
      (¬(trimSpace d ≠ [] ∧ jsonValid (trimSpace d) = true ∧
        unmarshalOk (trimSpace d) = true) ∧ utf8Valid d = true)) ∧
    ((NewRecord seq t src d).Encoding = "base64" ↔
      (¬(trimSpace d ≠ [] ∧ jsonValid (trimSpace d) = true ∧
        unmarshalOk (trimSpace d) = true) ∧ utf8Valid d = false)) ∧
    ((NewRecord seq t src d).Encoding = "base64" →
      (NewRecord seq t src d).Content = .b64C (base64Encode d) ∧
      (NewRecord seq t src d).End = []) := by
  by_cases hj : trimSpace d ≠ [] ∧ jsonValid (trimSpace d) = true ∧
      unmarshalOk (trimSpace d) = true
  · have he : (NewRecord seq t src d).Encoding = "json" := by
      unfold NewRecord; rw [if_pos hj]
    refine ⟨?_, ?_, ?_, ?_⟩
    · simp [he, hj]
    · simp [he, hj]
    · simp [he, hj]
    · intro hc
      rw [he] at hc
      simp at hc
  · by_cases hu : utf8Valid d = true
    · have he : (NewRecord seq t src d).Encoding = "text" := by
        unfold NewRecord; rw [if_neg hj, if_pos hu]
      refine ⟨?_, ?_, ?_, ?_⟩
      · simp [he, hj]
      · simp [he, hj, hu]
      · simp [he, hj, hu]
      · intro hc
        rw [he] at hc
        simp at hc
    · have hu2 : utf8Valid d = false := by simpa using hu
      have he : (NewRecord seq t src d).Encoding = "base64" := by
        unfold NewRecord; rw [if_neg hj, if_neg hu]
      refine ⟨?_, ?_, ?_, ?_⟩
      · simp [he, hj]
      · simp [he, hj, hu2]
      · simp [he, hj, hu2]
      · intro _
        constructor
        · show (NewRecord seq t src d).Content = _
          unfold NewRecord; rw [if_neg hj, if_neg hu]
        · show (NewRecord seq t src d).End = _
          unfold NewRecord; rw [if_neg hj, if_neg hu]

/-- C4 witness: a concrete binary line, instantiating the base64 content and
terminator conclusion of the amended claim. -/
theorem c4_witness :
    (NewRecord 0 dt0 "stdout" [255]).Content = .b64C (base64Encode [255]) ∧
    (NewRecord 0 dt0 "stdout" [255]).End = [] :=
  (c4_encoding_priority 0 dt0 "stdout" [255]).2.2.2 (by decide)

/-- Value of `Flush` on an empty pending buffer: only the flag is reset. -/
theorem Flush_empty {orc : Nat → Bool} {r : Recorder} {now : DateTime} {src : Source}
    (hbe : r.buffers src = []) :
    r.Flush orc now src = (r.setTrunc src false, true) := by
  unfold Recorder.Flush
  rw [if_pos hbe]

/-- Value of `Flush` on a non-empty pending buffer with a succeeding write:
one final record classifying the pending bytes with `truncated` equal to the
stream's truncation flag; buffer and flag cleared; other streams untouched. -/
theorem Flush_value {orc : Nat → Bool} {r : Recorder} {now : DateTime} {src : Source}
    (hbe : r.buffers src ≠ []) (hok : orc r.seq = false) :
    (r.Flush orc now src).1.out = r.out ++
      [{ NewRecord r.seq now src.str (r.buffers src)
          with Truncated := r.truncFlag src }] ∧
    (r.Flush orc now src).1.buffers src = [] ∧
    (r.Flush orc now src).1.truncFlag src = false ∧
    (r.Flush orc now src).1.seq = r.seq + 1 ∧
    (r.Flush orc now src).2 = true ∧
    (∀ s, s ≠ src → (r.Flush orc now src).1.buffers s = r.buffers s ∧
      (r.Flush orc now src).1.truncFlag s = r.truncFlag s) := by
  obtain ⟨res, hE⟩ : ∃ p, r.Flush orc now src = p := ⟨_, rfl⟩
  rw [hE]
  simp only [Recorder.Flush, Recorder.writeTruncatedRecord] at hE
  rw [if_neg hbe] at hE
  have hw : ∀ d tr, (((r.setBuf src []).setTrunc src false).writeRecord orc now src
      d tr).2 = true := by
    intro d tr
    unfold Recorder.writeRecord
    rw [if_neg (by rw [seq_setTrunc, seq_setBuf, hok]; simp)]
  split at hE
  · next hflag =>
    have hres1 : res.1 = (((r.setBuf src []).setTrunc src false).writeRecord orc now src
        (r.buffers src ++ []) true).1 := by rw [← hE]
    have hres2 : res.2 = true := by rw [← hE]; exact hw _ _
    have hw1 := writeRecord_out_of_ok (hw (r.buffers src ++ []) true)
    refine ⟨?_, ?_, ?_, ?_, hres2, ?_⟩
    · rw [hres1, hw1]
      show ((r.setBuf src []).setTrunc src false).out ++ _ = _
      rw [out_setTrunc, out_setBuf, seq_setTrunc, seq_setBuf, List.append_nil, hflag]
    · rw [hres1, writeRecord_fst_buffers, buffers_setTrunc, buffers_setBuf_self]
    · rw [hres1, writeRecord_fst_truncFlag, truncFlag_setTrunc_self]
    · rw [hres1, writeRecord_fst_seq, seq_setTrunc, seq_setBuf]
    · intro s hs
      rw [hres1, writeRecord_fst_buffers, writeRecord_fst_truncFlag, buffers_setTrunc,
        buffers_setBuf_ne _ _ hs, truncFlag_setTrunc_ne _ _ hs, truncFlag_setBuf]
      exact ⟨rfl, rfl⟩
  · next hflag =>
    have hflag2 : r.truncFlag src = false := by simpa using hflag
    have hres1 : res.1 = (((r.setBuf src []).setTrunc src false).writeRecord orc now src
        (r.buffers src) false).1 := by rw [← hE]
    have hres2 : res.2 = true := by rw [← hE]; exact hw _ _
    have hw1 := writeRecord_out_of_ok (hw (r.buffers src) false)
    refine ⟨?_, ?_, ?_, ?_, hres2, ?_⟩
    · rw [hres1, hw1]
      show ((r.setBuf src []).setTrunc src false).out ++ _ = _
      rw [out_setTrunc, out_setBuf, seq_setTrunc, seq_setBuf, hflag2]
    · rw [hres1, writeRecord_fst_buffers, buffers_setTrunc, buffers_setBuf_self]
    · rw [hres1, writeRecord_fst_truncFlag, truncFlag_setTrunc_self]
    · rw [hres1, writeRecord_fst_seq, seq_setTrunc, seq_setBuf]
    · intro s hs
      rw [hres1, writeRecord_fst_buffers, writeRecord_fst_truncFlag, buffers_setTrunc,
        buffers_setBuf_ne _ _ hs, truncFlag_setTrunc_ne _ _ hs, truncFlag_setBuf]
      exact ⟨rfl, rfl⟩

/-- Elements of the terminator extracted from an LF-free byte string are all
CR bytes. -/
theorem NewRecord_end_all_cr {s : Nat} {t : DateTime} {src : String} {d : List Nat}
    (hnl : (10 : Nat) ∉ d) : ∀ x ∈ (NewRecord s t src d).End, x = 13 := by
  intro x hx
  unfold NewRecord at hx
  split at hx
  · simp at hx
  · split at hx
    · have h1 := splitTrailingCRLF_end_mem x hx
      have h2 : x ∈ d := by
        rw [splitTrailingCRLF_snd] at hx
        rw [List.mem_reverse] at hx
        have := (List.takeWhile_sublist _).subset hx
        exact List.mem_reverse.mp this
      rcases h1 with h | h
      · exact h
      · exact absurd (h ▸ h2) hnl
    · simp at hx

/-- C6 counterexample: feeding `"a\r"` and flushing emits a final record whose
terminator is a lone CR, not the empty terminator the claim requires. -/
theorem c6_counterexample :
    ((runOps noFail [Op.feed dt0 Source.stdout [97, 13], Op.flush dt0 Source.stdout]
      (initRecorder 0)).out.map (fun rec => (rec.Content.bytes, rec.End, rec.Truncated)))
      = [([97], [13], false)] := by decide

/-- C6 (amended): flushing a stream with a non-empty pending buffer (which
never contains LF in reachable states) emits exactly one final record whose
truncated flag equals the stream's truncation-mode flag and whose terminator
consists solely of CR bytes — empty unless the pending bytes end in carriage
returns and the record classifies as text; the buffer and flag are then
cleared.  Flushing a stream with an empty pending buffer emits no record. -/
theorem c6_flush_postcondition (orc : Nat → Bool) (now : DateTime) (src : Source)
    (r : Recorder) (hnl : (10 : Nat) ∉ r.buffers src) :
    (r.buffers src = [] →
      (r.Flush orc now src).1.out = r.out ∧ (r.Flush orc now src).2 = true) ∧
    (r.buffers src ≠ [] → orc r.seq = false →
      (r.Flush orc now src).1.out = r.out ++
        [{ NewRecord r.seq now src.str (r.buffers src)
            with Truncated := r.truncFlag src }] ∧
      (r.Flush orc now src).1.buffers src = [] ∧
      (r.Flush orc now src).1.truncFlag src = false ∧
      (r.Flush orc now src).2 = true ∧
      ∀ x ∈ ({ NewRecord r.seq now src.str (r.buffers src)
          with Truncated := r.truncFlag src } : Record).End, x = 13) := by
  constructor
  · intro hbe
    rw [Flush_empty hbe]
    exact ⟨by simp, rfl⟩
  · intro hbe hok
    obtain ⟨h1, h2, h3, _, h5, _⟩ := Flush_value hbe hok
    refine ⟨h1, h2, h3, h5, ?_⟩
    intro x hx
    have hx2 : x ∈ (NewRecord r.seq now src.str (r.buffers src)).End := hx
    exact NewRecord_end_all_cr hnl x hx2

/-- C6 witness: flushing an empty stream emits nothing; flushing the state
obtained by feeding `"a\r"` emits exactly the expected record, with a lone-CR
terminator. -/
theorem c6_witness :
    (((initRecorder 0).Flush noFail dt0 Source.stdout).1.out = (initRecorder 0).out ∧
      ((initRecorder 0).Flush noFail dt0 Source.stdout).2 = true) ∧
    (let r1 := ((initRecorder 0).Record noFail dt0 Source.stdout [97, 13]).1
     (r1.Flush noFail dt0 Source.stdout).1.out = r1.out ++
        [{ NewRecord r1.seq dt0 Source.stdout.str (r1.buffers Source.stdout)
            with Truncated := r1.truncFlag Source.stdout }] ∧
      (r1.Flush noFail dt0 Source.stdout).1.buffers Source.stdout = [] ∧
      (r1.Flush noFail dt0 Source.stdout).1.truncFlag Source.stdout = false ∧
      (r1.Flush noFail dt0 Source.stdout).2 = true ∧
      ∀ x ∈ ({ NewRecord r1.seq dt0 Source.stdout.str (r1.buffers Source.stdout)
          with Truncated := r1.truncFlag Source.stdout } : Record).End, x = 13) :=
  ⟨(c6_flush_postcondition noFail dt0 Source.stdout (initRecorder 0) (by decide)).1 rfl,
   (c6_flush_postcondition noFail dt0 Source.stdout
      ((initRecorder 0).Record noFail dt0 Source.stdout [97, 13]).1 (by decide)).2
      (by decide) rfl⟩

@[simp] theorem setBuf_setBuf (r : Recorder) (s : Source) (v w : List Nat) :
    (r.setBuf s v).setBuf s w = r.setBuf s w := by cases s <;> rfl

theorem setBuf_self_eq (r : Recorder) (s : Source) : r.setBuf s (r.buffers s) = r := by
  cases s <;> rfl

/-- Feeding an LF-free chunk that keeps the pending line within the limit
just appends it to the stream's buffer. -/
theorem Record_append_buf (orc : Nat → Bool) (now : DateTime) (src : Source)
    (r : Recorder) (data : List Nat) (hnl : findNL data = none)
    (hf : r.truncFlag src = false)
    (hlim : r.maxLineLength = 0 ∨ (r.buffers src ++ data).length ≤ r.maxLineLength) :
    r.Record orc now src data = (r.setBuf src (r.buffers src ++ data), true) := by
  cases data with
  | nil =>
    unfold Recorder.Record
    rw [if_pos rfl, List.append_nil, setBuf_self_eq]
  | cons b rest =>
    have hne : b :: rest ≠ [] := by simp
    unfold Recorder.Record
    rw [if_neg hne, List.length_cons]
    simp only [Recorder.recordLoop, if_neg hne, hnl]
    rw [if_neg (by rw [hf]; simp), if_neg (by omega)]

/-- Splitting a feed at an LF-free within-limit point is invisible: feeding
`a ++ b` equals feeding `a` (which only extends the buffer) and then `b`. -/
theorem recordLoop_split (orc : Nat → Bool) (now : DateTime) (src : Source)
    (f1 f2 : Nat) (a b : List Nat) (r : Recorder)
    (ha : findNL a = none) (hf : r.truncFlag src = false)
    (hlim : r.maxLineLength = 0 ∨ (r.buffers src ++ a).length ≤ r.maxLineLength)
    (hf1 : (a ++ b).length ≤ f1) (hf2 : b.length ≤ f2) :
    Recorder.recordLoop orc now src f1 r (a ++ b) =
      Recorder.recordLoop orc now src f2 (r.setBuf src (r.buffers src ++ a)) b := by
  cases b with
  | nil =>
    rw [List.append_nil, recordLoop_nil]
    cases a with
    | nil =>
      rw [recordLoop_nil, List.append_nil, setBuf_self_eq]
    | cons a0 arest =>
      have hne : a0 :: arest ≠ [] := by simp
      cases f1 with
      | zero => simp at hf1
      | succ f1p =>
        simp only [Recorder.recordLoop, if_neg hne, ha]
        rw [if_neg (by rw [hf]; simp), if_neg (by omega)]
  | cons b0 brest =>
    have hneb : b0 :: brest ≠ [] := by simp
    have hneab : a ++ b0 :: brest ≠ [] := by simp
    cases f1 with
    | zero =>
      exfalso
      have : (a ++ b0 :: brest).length = a.length + brest.length + 1 := by
        simp
        omega
      omega
    | succ f1p =>
      cases f2 with
      | zero => simp at hf2
      | succ f2p =>
        have hf' : ¬(r.truncFlag src = true) := by rw [hf]; simp
        have hlen1 : brest.length ≤ f1p := by
          simp only [List.length_append, List.length_cons] at hf1
          omega
        have hlen2 : brest.length ≤ f2p := by
          simp only [List.length_cons] at hf2
          omega
        simp only [Recorder.recordLoop, if_neg hneb, if_neg hneab]
        rw [findNL_append_of_none ha]
        cases hnlb : findNL (b0 :: brest) with
        | none =>
          simp only [Option.map_none']
          simp only [truncFlag_setBuf, buffers_setBuf_self, max_setBuf, setBuf_setBuf]
          rw [if_neg hf', if_neg hf']
          rw [← List.append_assoc]
        | some j =>
          simp only [Option.map_some']
          simp only [truncFlag_setBuf, buffers_setBuf_self, max_setBuf, setBuf_setBuf]
          rw [if_neg hf', if_neg hf']
          have hplus : a.length + j + 1 = a.length + (j + 1) := by omega
          rw [hplus, List.take_append, List.drop_append, ← List.append_assoc]
          have hdb : ((b0 :: brest).drop (j + 1)).length ≤ brest.length := by
            rw [List.length_drop]
            simp only [List.length_cons]
            omega
          split
          · split
            · exact recordLoop_fuel orc now src f1p f2p _ _ (le_trans hdb hlen1)
                (le_trans hdb hlen2)
            · rfl
          · split
            · exact recordLoop_fuel orc now src f1p f2p _ _ (le_trans hdb hlen1)
                (le_trans hdb hlen2)
            · rfl

/-- `Record`-level version of `recordLoop_split`. -/
theorem Record_split (orc : Nat → Bool) (now : DateTime) (src : Source)
    (r : Recorder) (a b : List Nat)
    (ha : findNL a = none) (hf : r.truncFlag src = false)
    (hlim : r.maxLineLength = 0 ∨ (r.buffers src ++ a).length ≤ r.maxLineLength) :
    r.Record orc now src (a ++ b) =
      (r.setBuf src (r.buffers src ++ a)).Record orc now src b := by
  by_cases hae : a = []
  · subst hae
    rw [List.nil_append, List.append_nil, setBuf_self_eq]
  · by_cases hbe : b = []
    · subst hbe
      rw [List.append_nil]
      rw [Record_append_buf orc now src r a ha hf hlim]
      unfold Recorder.Record
      rw [if_pos rfl]
    · have hneab : a ++ b ≠ [] := by
        intro hc
        rw [List.append_eq_nil] at hc
        exact hae hc.1
      unfold Recorder.Record
      rw [if_neg hneab, if_neg hbe]
      exact recordLoop_split orc now src (a ++ b).length b.length a b r ha hf hlim
        (le_refl _) (le_refl _)

/-! ### C7: reassembly invariance -/

/-- A sequence of consecutive feed (`Record`) calls to one stream with a fixed
wall-clock instant, discarding the per-call error results as `CopyAndRecord`
does. -/
def runFeeds (orc : Nat → Bool) (now : DateTime) (src : Source)
    (chunks : List (List Nat)) (r : Recorder) : Recorder :=
  chunks.foldl (fun s c => (s.Record orc now src c).1) r

/-- Feeding LF-free within-limit chunks followed by a final chunk is the same
as feeding their concatenation in one call. -/
theorem runFeeds_split (orc : Nat → Bool) (now : DateTime) (src : Source)
    (chunks : List (List Nat)) (b : List Nat) (r : Recorder)
    (hf : r.truncFlag src = false)
    (hnl : findNL chunks.join = none)
    (hlim : r.maxLineLength = 0 ∨
      (r.buffers src ++ chunks.join).length ≤ r.maxLineLength) :
    runFeeds orc now src (chunks ++ [b]) r =
      (r.Record orc now src (chunks.join ++ b)).1 := by
  induction chunks generalizing r with
  | nil =>
    rfl
  | cons c rest ih =>
    have hjc : (c :: rest).join = c ++ rest.join := rfl
    have hnomem : (10 : Nat) ∉ c ++ rest.join := by
      rw [← hjc]
      exact findNL_eq_none_iff.mp hnl
    have hnlc : findNL c = none :=
      findNL_eq_none_iff.mpr (fun hm => hnomem (List.mem_append_left _ hm))
    have hnlrest : findNL rest.join = none :=
      findNL_eq_none_iff.mpr (fun hm => hnomem (List.mem_append_right _ hm))
    have hlimc : r.maxLineLength = 0 ∨ (r.buffers src ++ c).length ≤ r.maxLineLength := by
      rcases hlim with h | h
      · exact Or.inl h
      · right
        rw [hjc] at h
        simp only [List.length_append] at h ⊢
        omega
    have hlim' : (r.setBuf src (r.buffers src ++ c)).maxLineLength = 0 ∨
        ((r.setBuf src (r.buffers src ++ c)).buffers src ++ rest.join).length ≤
          (r.setBuf src (r.buffers src ++ c)).maxLineLength := by
      rw [max_setBuf, buffers_setBuf_self]
      rcases hlim with h | h
      · exact Or.inl h
      · right
        rw [hjc] at h
        simp only [List.length_append] at h ⊢
        omega
    have hfold : runFeeds orc now src ((c :: rest) ++ [b]) r =
        runFeeds orc now src (rest ++ [b]) (r.Record orc now src c).1 := rfl
    have hstep : (r.Record orc now src c).1 = r.setBuf src (r.buffers src ++ c) := by
      rw [Record_append_buf orc now src r c hnlc hf hlimc]
    have hrw : (c :: rest).join ++ b = c ++ (rest.join ++ b) := by
      rw [hjc, List.append_assoc]
    rw [hfold, hstep,
      ih (r.setBuf src (r.buffers src ++ c)) (by rw [truncFlag_setBuf]; exact hf)
        hnlrest hlim',
      hrw, Record_split orc now src r c (rest.join ++ b) hnlc hf hlimc]

/-- Feeding a complete LF-terminated line that fits within the limit emits
exactly one non-truncated record carrying the pending bytes plus the line,
and clears the stream's buffer. -/
theorem Record_single_line (orc : Nat → Bool) (now : DateTime) (src : Source)
    (r : Recorder) (l : List Nat)
    (hnl : findNL l = none) (hf : r.truncFlag src = false)
    (hlim : r.maxLineLength = 0 ∨ (r.buffers src ++ l ++ [10]).length ≤ r.maxLineLength)
    (hok : orc r.seq = false) :
    (r.Record orc now src (l ++ [10])).1.out =
      r.out ++ [{ NewRecord r.seq now src.str (r.buffers src ++ (l ++ [10]))
        with Truncated := false }] ∧
    (r.Record orc now src (l ++ [10])).1.buffers src = [] ∧
    (r.Record orc now src (l ++ [10])).1.truncFlag src = false ∧
    (r.Record orc now src (l ++ [10])).1.seq = r.seq + 1 ∧
    (r.Record orc now src (l ++ [10])).2 = true := by
  have hne : l ++ [10] ≠ [] := by simp
  have hfind : findNL (l ++ [10]) = some l.length := findNL_append_singleton hnl
  have hlen : (l ++ [10]).length = l.length + 1 := by simp
  have htake : (l ++ [10]).take (l.length + 1) = l ++ [10] := by
    rw [← hlen, List.take_length]
  have hdrop : (l ++ [10]).drop (l.length + 1) = [] := by
    rw [← hlen, List.drop_length]
  have hflag' : ¬(r.truncFlag src = true) := by rw [hf]; simp
  have hcap : ¬(0 < r.maxLineLength ∧
      r.maxLineLength < (r.buffers src ++ (l ++ [10]).take (l.length + 1)).length) := by
    rw [htake]
    rintro ⟨h1, h2⟩
    rcases hlim with h | h
    · omega
    · simp only [List.length_append, List.length_cons, List.length_nil] at h h2
      omega
  have hw2 : ((r.setBuf src []).writeRecord orc now src
      (r.buffers src ++ (l ++ [10])) false).2 = true := by
    unfold Recorder.writeRecord
    rw [seq_setBuf]
    rw [if_neg (by rw [hok]; simp)]
  obtain ⟨res, hE⟩ : ∃ p, r.Record orc now src (l ++ [10]) = p := ⟨_, rfl⟩
  rw [hE]
  simp only [Recorder.Record] at hE
  rw [if_neg hne, hlen] at hE
  simp only [Recorder.recordLoop, if_neg hne, hfind] at hE
  rw [if_neg hflag', if_neg hcap, htake, hdrop] at hE
  split at hE
  · rw [recordLoop_nil] at hE
    have hres1 : res.1 = ((r.setBuf src []).writeRecord orc now src
        (r.buffers src ++ (l ++ [10])) false).1 := by rw [← hE]
    have hres2 : res.2 = true := by rw [← hE]
    have hw1 := writeRecord_out_of_ok hw2
    refine ⟨?_, ?_, ?_, ?_, hres2⟩
    · rw [hres1, hw1]
      show (r.setBuf src []).out ++ _ = _
      rw [out_setBuf, seq_setBuf]
    · rw [hres1, writeRecord_fst_buffers, buffers_setBuf_self]
    · rw [hres1, writeRecord_fst_truncFlag, truncFlag_setBuf]
      exact hf
    · rw [hres1, writeRecord_fst_seq, seq_setBuf]
  · next hw2' => exact absurd hw2 hw2'

/-- **C7** (corrected): reassembly invariance within the line-length limit.
A line `l ++ [10]` split at arbitrary byte offsets into chunks
`pre₀, …, preₖ₋₁, last ++ [10]` (the terminator arriving in the last chunk)
produces, once the chunk carrying the terminator is processed, the same
recorder state as feeding the whole line in one `Record` call; in particular,
when the write succeeds, exactly one record is emitted for that line, equal to
the single-call record, and the stream's buffer is left empty.  Without the
within-limit proviso the claim fails: when truncation strikes, splitting just
before a final CR changes the recovered terminator of the truncated record. -/
theorem c7_reassembly (orc : Nat → Bool) (now : DateTime) (src : Source)
    (r : Recorder) (pre : List (List Nat)) (last l : List Nat)
    (hjoin : pre.join ++ last = l)
    (hnl : findNL l = none)
    (hf : r.truncFlag src = false)
    (hlim : r.maxLineLength = 0 ∨ (r.buffers src ++ l ++ [10]).length ≤ r.maxLineLength)
    (hok : orc r.seq = false) :
    runFeeds orc now src (pre ++ [last ++ [10]]) r =
      (r.Record orc now src (l ++ [10])).1 ∧
    (runFeeds orc now src (pre ++ [last ++ [10]]) r).out =
      r.out ++ [{ NewRecord r.seq now src.str (r.buffers src ++ (l ++ [10]))
        with Truncated := false }] ∧
    (runFeeds orc now src (pre ++ [last ++ [10]]) r).buffers src = [] := by
  have hnlpre : findNL pre.join = none := by
    rw [findNL_eq_none_iff] at hnl ⊢
    intro hm
    exact hnl (by rw [← hjoin]; exact List.mem_append_left _ hm)
  have hlimpre : r.maxLineLength = 0 ∨
      (r.buffers src ++ pre.join).length ≤ r.maxLineLength := by
    rcases hlim with h | h
    · exact Or.inl h
    · right
      rw [← hjoin] at h
      simp only [List.length_append, List.length_cons, List.length_nil] at h ⊢
      omega
  have h1 : runFeeds orc now src (pre ++ [last ++ [10]]) r =
      (r.Record orc now src (l ++ [10])).1 := by
    rw [runFeeds_split orc now src pre (last ++ [10]) r hf hnlpre hlimpre]
    rw [← List.append_assoc, hjoin]
  obtain ⟨ho, hb, _, _, _⟩ := Record_single_line orc now src r l hnl hf hlim hok
  exact ⟨h1, by rw [h1]; exact ho, by rw [h1]; exact hb⟩

/-- C7 counterexample to the unrestricted claim: with limit 2, feeding the
line `"abc\r\n"` split as `["abc\r", "\n"]` yields a truncated record whose
terminator is `"\n"`, while the single call yields terminator `"\r\n"`; the
resulting states differ. -/
theorem c7_counterexample :
    (runFeeds noFail dt0 Source.stdout [[97, 98, 99, 13], [10]]
        (initRecorder 2)).out.map (fun rec => (rec.End, rec.Truncated)) =
      [([10], true)] ∧
    ((initRecorder 2).Record noFail dt0 Source.stdout
        [97, 98, 99, 13, 10]).1.out.map (fun rec => (rec.End, rec.Truncated)) =
      [([13, 10], true)] ∧
    runFeeds noFail dt0 Source.stdout [[97, 98, 99, 13], [10]] (initRecorder 2) ≠
      ((initRecorder 2).Record noFail dt0 Source.stdout [97, 98, 99, 13, 10]).1 := by
  decide

/-- C7 witness: the line `"hello\n"` split as `["he", "llo\n"]` on a fresh
unlimited recorder reproduces the single-call state. -/
theorem c7_witness :
    runFeeds noFail dt0 Source.stdout [[104, 101], [108, 108, 111, 10]]
        (initRecorder 0) =
      ((initRecorder 0).Record noFail dt0 Source.stdout
        ([104, 101, 108, 108, 111] ++ [10])).1 :=
  (c7_reassembly noFail dt0 Source.stdout (initRecorder 0) [[104, 101]]
    [108, 108, 111] [104, 101, 108, 108, 111] (by decide) (by decide) (by decide)
    (Or.inl (by decide)) (by decide)).1

/-! ### C5: round-trip reconstruction -/

/-- Concatenation of `content + end` over a list of records in emission
order: the reconstruction the round-trip claim describes. -/
def ceJoin (recs : List Record) : List Nat :=
  (recs.map (fun rec => rec.Content.bytes ++ rec.End)).flatten

theorem ceJoin_nil : ceJoin [] = [] := rfl

theorem ceJoin_cons (rec : Record) (tl : List Record) :
    ceJoin (rec :: tl) = (rec.Content.bytes ++ rec.End) ++ ceJoin tl := rfl

theorem ceJoin_append (a b : List Record) :
    ceJoin (a ++ b) = ceJoin a ++ ceJoin b := by
  simp [ceJoin]

/-- `writeRecord` never removes a record from the sink. -/
theorem writeRecord_out_mem {orc : Nat → Bool} {r : Recorder} {now : DateTime}
    {src : Source} {d : List Nat} {tr : Bool} {rec : Record} (h : rec ∈ r.out) :
    rec ∈ (r.writeRecord orc now src d tr).1.out := by
  unfold Recorder.writeRecord
  split
  · exact h
  · exact List.mem_append_left _ h

/-- The record loop never removes a record from the sink. -/
theorem recordLoop_out_mem (orc : Nat → Bool) (now : DateTime) (src : Source) :
    ∀ f (data : List Nat) (r r' : Recorder) (ok : Bool),
      Recorder.recordLoop orc now src f r data = (r', ok) →
      ∀ rec ∈ r.out, rec ∈ r'.out := by
  intro f
  induction f with
  | zero =>
    intro data r r' ok hEq rec hmem
    rw [recordLoop_zero] at hEq
    injection hEq with h1 h2
    subst h1
    exact hmem
  | succ f ih =>
    intro data r r' ok hEq rec hmem
    cases data with
    | nil =>
      rw [recordLoop_nil] at hEq
      injection hEq with h1 h2
      subst h1
      exact hmem
    | cons b rest =>
      have hne : b :: rest ≠ [] := by simp
      simp only [Recorder.recordLoop, if_neg hne, Recorder.writeTruncatedRecord] at hEq
      cases hnl : findNL (b :: rest) with
      | none =>
        simp only [hnl] at hEq
        split at hEq
        · injection hEq with h1 h2
          subst h1
          exact hmem
        · split at hEq
          · injection hEq with h1 h2
            subst h1
            rw [out_setTrunc, out_setBuf]
            exact hmem
          · injection hEq with h1 h2
            subst h1
            rw [out_setBuf]
            exact hmem
      | some idx =>
        simp only [hnl] at hEq
        split at hEq
        · split at hEq
          · exact ih _ _ _ _ hEq rec
              (by rw [out_setTrunc, out_setBuf]; exact writeRecord_out_mem hmem)
          · injection hEq with h1 h2
            subst h1
            exact writeRecord_out_mem hmem
        · split at hEq
          · split at hEq
            · exact ih _ _ _ _ hEq rec
                (writeRecord_out_mem (by rw [out_setBuf]; exact hmem))
            · injection hEq with h1 h2
              subst h1
              exact writeRecord_out_mem (by rw [out_setBuf]; exact hmem)
          · split at hEq
            · exact ih _ _ _ _ hEq rec
                (writeRecord_out_mem (by rw [out_setBuf]; exact hmem))
            · injection hEq with h1 h2
              subst h1
              exact writeRecord_out_mem (by rw [out_setBuf]; exact hmem)

/-- A feed call never removes a record from the sink. -/
theorem Record_out_mem {orc : Nat → Bool} {r : Recorder} {now : DateTime} {src : Source}
    {data : List Nat} {rec : Record} (h : rec ∈ r.out) :
    rec ∈ (r.Record orc now src data).1.out := by
  unfold Recorder.Record
  split
  · exact h
  · exact recordLoop_out_mem orc now src data.length data r _ _ rfl rec h

/-- A flush call never removes a record from the sink. -/
theorem Flush_out_mem {orc : Nat → Bool} {r : Recorder} {now : DateTime} {src : Source}
    {rec : Record} (h : rec ∈ r.out) :
    rec ∈ (r.Flush orc now src).1.out := by
  unfold Recorder.Flush Recorder.writeTruncatedRecord
  split
  · show rec ∈ (r.setTrunc src false).out
    rw [out_setTrunc]
    exact h
  · split
    · exact writeRecord_out_mem (by rw [out_setTrunc, out_setBuf]; exact h)
    · exact writeRecord_out_mem (by rw [out_setTrunc, out_setBuf]; exact h)

/-- A run of consecutive feed calls to one stream, each carrying its own
wall-clock instant, on the always-succeeding sink. -/
def runTextFeeds (src : Source) (items : List (DateTime × List Nat)) (r : Recorder) :
    Recorder :=
  items.foldl (fun s it => (s.Record noFail it.1 src it.2).1) r

theorem runTextFeeds_out_mem {src : Source} :
    ∀ (items : List (DateTime × List Nat)) (r : Recorder) (rec : Record),
      rec ∈ r.out → rec ∈ (runTextFeeds src items r).out := by
  intro items
  induction items with
  | nil =>
    intro r rec h
    exact h
  | cons it rest ih =>
    intro r rec h
    exact ih _ rec (Record_out_mem h)

/-- Core of the round-trip property: one `recordLoop` call on the
always-succeeding sink, entered and left with the truncation flag off and
with every record in the resulting sink text-classified and untruncated,
appends records whose `content + end` concatenation is exactly the bytes it
consumed. -/
theorem recordLoop_text_join (now : DateTime) (src : Source) :
    ∀ f (data : List Nat) (r r' : Recorder) (ok : Bool),
      Recorder.recordLoop noFail now src f r data = (r', ok) →
      data.length ≤ f →
      r.truncFlag src = false →
      r'.truncFlag src = false →
      (∀ rec ∈ r'.out, rec.Encoding = "text" ∧ rec.Truncated = false) →
      ∃ tl, r'.out = r.out ++ tl ∧
        ceJoin tl ++ r'.buffers src = r.buffers src ++ data := by
  intro f
  induction f with
  | zero =>
    intro data r r' ok hEq hlen hf hf' hrecs
    have hd : data = [] := List.length_eq_zero.mp (Nat.le_zero.mp hlen)
    subst hd
    rw [recordLoop_zero] at hEq
    injection hEq with h1 h2
    subst h1
    exact ⟨[], by simp, by simp [ceJoin]⟩
  | succ f ih =>
    intro data r r' ok hEq hlen hf hf' hrecs
    cases data with
    | nil =>
      rw [recordLoop_nil] at hEq
      injection hEq with h1 h2
      subst h1
      exact ⟨[], by simp, by simp [ceJoin]⟩
    | cons b rest =>
      have hne : b :: rest ≠ [] := by simp
      have hlen' : rest.length ≤ f := by
        simp only [List.length_cons] at hlen
        omega
      simp only [Recorder.recordLoop, if_neg hne, Recorder.writeTruncatedRecord] at hEq
      cases hnl : findNL (b :: rest) with
      | none =>
        simp only [hnl] at hEq
        split at hEq
        · next hflag =>
          rw [hf] at hflag
          exact absurd hflag (by simp)
        · next hflag =>
          split at hEq
          · next hcap =>
            injection hEq with h1 h2
            rw [← h1, truncFlag_setTrunc_self] at hf'
            simp at hf'
          · next hcap =>
            injection hEq with h1 h2
            subst h1
            refine ⟨[], by simp, ?_⟩
            rw [ceJoin_nil, List.nil_append, buffers_setBuf_self]
      | some idx =>
        simp only [hnl] at hEq
        split at hEq
        · next hflag =>
          rw [hf] at hflag
          exact absurd hflag (by simp)
        · next hflag =>
          split at hEq
          · next hcap =>
            exfalso
            split at hEq
            · next hok =>
              have hok2 : ((r.setBuf src []).writeRecord noFail now src
                  ((r.buffers src ++ (b :: rest).take (idx + 1)).take r.maxLineLength ++
                    extractLineEndingFromLine
                      (r.buffers src ++ (b :: rest).take (idx + 1))) true).2 = true := hok
              have hw1 := writeRecord_out_of_ok hok2
              have hmem0 : ({ NewRecord (r.setBuf src []).seq now src.str
                  ((r.buffers src ++ (b :: rest).take (idx + 1)).take r.maxLineLength ++
                    extractLineEndingFromLine
                      (r.buffers src ++ (b :: rest).take (idx + 1)))
                  with Truncated := true } : Record) ∈
                  ((r.setBuf src []).writeRecord noFail now src
                  ((r.buffers src ++ (b :: rest).take (idx + 1)).take r.maxLineLength ++
                    extractLineEndingFromLine
                      (r.buffers src ++ (b :: rest).take (idx + 1))) true).1.out := by
                rw [hw1]
                simp
              have hbad := (hrecs _ (recordLoop_out_mem noFail now src f _ _ _ _ hEq
                _ hmem0)).2
              simp at hbad
            · next hok =>
              exact hok (by
                unfold Recorder.writeRecord
                rw [if_neg (by simp [noFail])])
          · next hcap =>
            split at hEq
            · next hok =>
              have hok2 : ((r.setBuf src []).writeRecord noFail now src
                  (r.buffers src ++ (b :: rest).take (idx + 1)) false).2 = true := hok
              have hw1 := writeRecord_out_of_ok hok2
              obtain ⟨tl2, hout2, hjoin2⟩ := ih _ _ _ _ hEq
                (by rw [List.length_drop]; simp only [List.length_cons]; omega)
                (by rw [writeRecord_fst_truncFlag, truncFlag_setBuf]; exact hf)
                hf' hrecs
              have hmem0 : ({ NewRecord (r.setBuf src []).seq now src.str
                  (r.buffers src ++ (b :: rest).take (idx + 1))
                  with Truncated := false } : Record) ∈
                  ((r.setBuf src []).writeRecord noFail now src
                    (r.buffers src ++ (b :: rest).take (idx + 1)) false).1.out := by
                rw [hw1]
                simp
              have hmemfin := recordLoop_out_mem noFail now src f _ _ _ _ hEq _ hmem0
              have htxt : (NewRecord (r.setBuf src []).seq now src.str
                  (r.buffers src ++ (b :: rest).take (idx + 1))).Encoding = "text" :=
                (hrecs _ hmemfin).1
              have htj : ({ NewRecord (r.setBuf src []).seq now src.str
                  (r.buffers src ++ (b :: rest).take (idx + 1))
                  with Truncated := false } : Record).Content.bytes ++
                  ({ NewRecord (r.setBuf src []).seq now src.str
                  (r.buffers src ++ (b :: rest).take (idx + 1))
                  with Truncated := false } : Record).End =
                  r.buffers src ++ (b :: rest).take (idx + 1) :=
                NewRecord_text_join htxt
              have hj2 := hjoin2
              rw [writeRecord_fst_buffers, buffers_setBuf_self, List.nil_append] at hj2
              refine ⟨{ NewRecord (r.setBuf src []).seq now src.str
                  (r.buffers src ++ (b :: rest).take (idx + 1))
                  with Truncated := false } :: tl2, ?_, ?_⟩
              · rw [hout2, hw1]
                simp
              · rw [ceJoin_cons, List.append_assoc, hj2, htj, List.append_assoc,
                  List.take_append_drop]
            · next hok =>
              exact absurd (by
                unfold Recorder.writeRecord
                rw [if_neg (by simp [noFail])] :
                ((r.setBuf src []).writeRecord noFail now src
                  (r.buffers src ++ (b :: rest).take (idx + 1)) false).2 = true) hok

/-- `Record`-level round-trip step on the always-succeeding sink. -/
theorem Record_text_join {now : DateTime} {src : Source} {r : Recorder} {data : List Nat}
    (hf : r.truncFlag src = false)
    (hf2 : (r.Record noFail now src data).1.truncFlag src = false)
    (hrecs : ∀ rec ∈ (r.Record noFail now src data).1.out,
      rec.Encoding = "text" ∧ rec.Truncated = false) :
    ∃ tl, (r.Record noFail now src data).1.out = r.out ++ tl ∧
      ceJoin tl ++ (r.Record noFail now src data).1.buffers src =
        r.buffers src ++ data := by
  by_cases hd : data = []
  · subst hd
    refine ⟨[], ?_, ?_⟩
    · show r.out = r.out ++ []
      rw [List.append_nil]
    · show ceJoin [] ++ r.buffers src = r.buffers src ++ []
      rw [ceJoin_nil, List.nil_append, List.append_nil]
  · have hEq : Recorder.recordLoop noFail now src data.length r data =
        ((r.Record noFail now src data).1, (r.Record noFail now src data).2) := by
      unfold Recorder.Record
      rw [if_neg hd]
    exact recordLoop_text_join now src data.length data r _ _ hEq (le_refl _) hf hf2 hrecs

/-- Round-trip across a whole run of feed calls on the always-succeeding
sink: if the stream's truncation flag is off after every prefix of the run
and every record in the resulting sink is text-classified and untruncated,
the appended records' `content + end` concatenation is the pending buffer
growth plus all the bytes fed. -/
theorem runTextFeeds_join (src : Source) :
    ∀ (items : List (DateTime × List Nat)) (r : Recorder),
      (∀ k, k ≤ items.length →
        (runTextFeeds src (items.take k) r).truncFlag src = false) →
      (∀ rec ∈ (runTextFeeds src items r).out,
        rec.Encoding = "text" ∧ rec.Truncated = false) →
      ∃ tl, (runTextFeeds src items r).out = r.out ++ tl ∧
        ceJoin tl ++ (runTextFeeds src items r).buffers src =
          r.buffers src ++ (items.map Prod.snd).flatten := by
  intro items
  induction items with
  | nil =>
    intro r hFlag hrecs
    exact ⟨[], by simp [runTextFeeds], by simp [runTextFeeds, ceJoin]⟩
  | cons it rest ih =>
    intro r hFlag hrecs
    have hf0 : r.truncFlag src = false := hFlag 0 (Nat.zero_le _)
    have hf1 : ((r.Record noFail it.1 src it.2).1).truncFlag src = false :=
      hFlag 1 (Nat.succ_le_succ (Nat.zero_le _))
    have hrecs1 : ∀ rec ∈ (r.Record noFail it.1 src it.2).1.out,
        rec.Encoding = "text" ∧ rec.Truncated = false := by
      intro rec hm
      exact hrecs rec (runTextFeeds_out_mem rest _ rec hm)
    obtain ⟨tl1, hout1, hjoin1⟩ := Record_text_join hf0 hf1 hrecs1
    have hFlag2 : ∀ k, k ≤ rest.length →
        (runTextFeeds src (rest.take k) (r.Record noFail it.1 src it.2).1).truncFlag src
          = false := by
      intro k hk
      exact hFlag (k + 1) (Nat.succ_le_succ hk)
    obtain ⟨tl2, hout2, hjoin2⟩ := ih (r.Record noFail it.1 src it.2).1 hFlag2 hrecs
    refine ⟨tl1 ++ tl2, ?_, ?_⟩
    · show (runTextFeeds src rest (r.Record noFail it.1 src it.2).1).out = _
      rw [hout2, hout1, List.append_assoc]
    · show ceJoin (tl1 ++ tl2) ++
        (runTextFeeds src rest (r.Record noFail it.1 src it.2).1).buffers src = _
      rw [ceJoin_append, List.append_assoc, hjoin2, ← List.append_assoc, hjoin1,
        List.append_assoc]
      rfl

/-- **C5** (corrected): round-trip reconstruction holds for runs whose
records are all text-classified.  For every run of feed calls to one stream
followed by one flush on the always-succeeding sink, if no truncation
occurred (the stream's truncation flag is off after every prefix of the run)
and every emitted record is classified text and not truncated, then
concatenating `content + end` of the emitted records in emission order
reproduces exactly the bytes fed.  The original claim also admitted
base64-classified records, which is refuted by `c5_counterexample`: a base64
record's content is the base64 text of the raw bytes, so the concatenation
differs from the original stream. -/
theorem c5_round_trip (src : Source) (items : List (DateTime × List Nat))
    (fdt : DateTime) (maxLen : Nat)
    (hFlag : ∀ k, k ≤ items.length →
      (runTextFeeds src (items.take k) (initRecorder maxLen)).truncFlag src = false)
    (hrecs : ∀ rec ∈ ((runTextFeeds src items (initRecorder maxLen)).Flush noFail fdt
        src).1.out, rec.Encoding = "text" ∧ rec.Truncated = false) :
    ceJoin ((runTextFeeds src items (initRecorder maxLen)).Flush noFail fdt src).1.out =
      (items.map Prod.snd).flatten := by
  have hrecs0 : ∀ rec ∈ (runTextFeeds src items (initRecorder maxLen)).out,
      rec.Encoding = "text" ∧ rec.Truncated = false := by
    intro rec hm
    exact hrecs rec (Flush_out_mem hm)
  obtain ⟨tl, hout, hjoin⟩ := runTextFeeds_join src items (initRecorder maxLen) hFlag
    hrecs0
  have hinitb : (initRecorder maxLen).buffers src = [] := by cases src <;> rfl
  have hout0 : (runTextFeeds src items (initRecorder maxLen)).out = tl := by
    rw [hout]
    show [] ++ tl = tl
    rw [List.nil_append]
  rw [hinitb, List.nil_append] at hjoin
  by_cases hbe : (runTextFeeds src items (initRecorder maxLen)).buffers src = []
  · rw [hbe, List.append_nil] at hjoin
    rw [Flush_empty hbe]
    show ceJoin ((runTextFeeds src items (initRecorder maxLen)).setTrunc src false).out
      = _
    rw [out_setTrunc, hout0, hjoin]
  · obtain ⟨hfo, _, _, _, _, _⟩ :=
      @Flush_value noFail (runTextFeeds src items (initRecorder maxLen)) fdt src hbe rfl
    have hmemF : ({ NewRecord (runTextFeeds src items (initRecorder maxLen)).seq fdt
        src.str ((runTextFeeds src items (initRecorder maxLen)).buffers src)
        with Truncated := (runTextFeeds src items (initRecorder maxLen)).truncFlag src }
        : Record) ∈
        ((runTextFeeds src items (initRecorder maxLen)).Flush noFail fdt src).1.out := by
      rw [hfo]
      simp
    have htxtF : (NewRecord (runTextFeeds src items (initRecorder maxLen)).seq fdt
        src.str ((runTextFeeds src items (initRecorder maxLen)).buffers src)).Encoding
        = "text" := (hrecs _ hmemF).1
    have hCE : ({ NewRecord (runTextFeeds src items (initRecorder maxLen)).seq fdt
        src.str ((runTextFeeds src items (initRecorder maxLen)).buffers src)
        with Truncated := (runTextFeeds src items (initRecorder maxLen)).truncFlag src }
        : Record).Content.bytes ++
        ({ NewRecord (runTextFeeds src items (initRecorder maxLen)).seq fdt
        src.str ((runTextFeeds src items (initRecorder maxLen)).buffers src)
        with Truncated := (runTextFeeds src items (initRecorder maxLen)).truncFlag src }
        : Record).End =
        (runTextFeeds src items (initRecorder maxLen)).buffers src :=
      NewRecord_text_join htxtF
    rw [hfo, hout0, ceJoin_append, ceJoin_cons, ceJoin_nil, List.append_nil, hCE, hjoin]

/-- C5 counterexample to the unrestricted claim: feeding the non-UTF-8 line
`0xFF 0x0A` yields a base64 record whose `content + end` is the base64 text
`"/wo="`, not the original bytes. -/
theorem c5_counterexample :
    ((((initRecorder 0).Record noFail dt0 Source.stdout [255, 10]).1.Flush noFail dt0
        Source.stdout).1.out.map
      (fun rec => (rec.Encoding, rec.Truncated, rec.Content.bytes ++ rec.End)) =
      [("base64", false, [47, 119, 111, 61])]) ∧
    ceJoin (((initRecorder 0).Record noFail dt0 Source.stdout [255, 10]).1.Flush noFail
        dt0 Source.stdout).1.out ≠ [255, 10] := by
  decide

/-- C5 witness: feeding `"hi\n"` then `"ok"` and flushing reconstructs the
original byte stream from the two text records. -/
theorem c5_witness :
    ceJoin ((runTextFeeds Source.stdout [(dt0, [104, 105, 10]), (dt0, [111, 107])]
        (initRecorder 0)).Flush noFail dt0 Source.stdout).1.out =
      ([(dt0, [104, 105, 10]), (dt0, [111, 107])].map Prod.snd).flatten :=
  c5_round_trip Source.stdout [(dt0, [104, 105, 10]), (dt0, [111, 107])] dt0 0
    (by decide) (by decide)

end Ioetap


